import Mathlib

/-!
Verification development for the jangal media-catalog engine.

Shallow embedding of `src/library/{library,media,scrape,util}.rs`.

Modelling conventions:
* `MediaId` is a plain `Nat` (Rust `usize` newtype; no overflow is exercised).
* The `FxHashMap<MediaId, Media>` backing the library is embedded as an
  association list `List (Nat × Media)`; `HashMap::insert` replaces the value
  when the key is present and otherwise appends, `get` is first-match lookup.
* Timestamps (`chrono::DateTime<Local>` / `NaiveDate`) are embedded as `Int`
  (only their linear order is ever used by the code under verification).
* Paths (`PathBuf`) are embedded as `String` (only equality is used).
* `f32` is embedded as the idealized type `F32`: exact rationals extended with
  NaN and the two infinities.  Arithmetic is exact (no rounding), NaN and
  division by zero follow IEEE-754 (`0.0 / 0.0 = NaN`, comparisons involving
  NaN are false).  Every fact proved below about `f32` code is decided by
  exact values (empty sums, `0/0`), never by rounding behaviour.

The snapshot of `src/library/media.rs` in this repository is a stale version
of the entity model (leaf structs hold `path`/`watched` directly and there is
no `Video` struct), while `library.rs`, `util.rs` and `scrape.rs` are written
against the current model (`Media::video()` returning a shared `Video` record,
`Media::title()` returning a `String`).  The current declarations of `Video`,
`Media::video()` and `Media::title()` are therefore modelled from the spec
(§3): `Video` carries the normalized file path, the `Watched` state, the
`added` timestamp and the optional `last_watched` timestamp, and is present
exactly on the leaf variants `Uncategorised`, `Movie` and `Episode`.
-/

namespace Jangal

/-- Idealized `f32`: exact rationals plus NaN and signed infinities. -/
inductive F32 where
  | nan : F32
  | inf : F32
  | ninf : F32
  | val : ℚ → F32
deriving DecidableEq, Repr

namespace F32

/-- IEEE addition (exact on finite values). -/
def add : F32 → F32 → F32
  | nan, _ => nan
  | _, nan => nan
  | inf, ninf => nan
  | ninf, inf => nan
  | inf, _ => inf
  | _, inf => inf
  | ninf, _ => ninf
  | _, ninf => ninf
  | val a, val b => val (a + b)

/-- IEEE subtraction (exact on finite values). -/
def sub : F32 → F32 → F32
  | nan, _ => nan
  | _, nan => nan
  | inf, inf => nan
  | ninf, ninf => nan
  | inf, _ => inf
  | _, inf => ninf
  | ninf, _ => ninf
  | _, ninf => inf
  | val a, val b => val (a - b)

/-- IEEE division (exact on finite values); `0/0 = NaN`, `x/0 = ±∞` otherwise. -/
def div : F32 → F32 → F32
  | nan, _ => nan
  | _, nan => nan
  | inf, inf => nan
  | inf, ninf => nan
  | ninf, inf => nan
  | ninf, ninf => nan
  | inf, val b => if b < 0 then ninf else inf
  | ninf, val b => if b < 0 then inf else ninf
  | val a, inf => if a = 0 then val 0 else val 0
  | val _, ninf => val 0
  | val a, val b =>
    if b = 0 then
      if a = 0 then nan else if a > 0 then inf else ninf
    else val (a / b)

/-- IEEE absolute value. -/
def abs : F32 → F32
  | nan => nan
  | inf => inf
  | ninf => inf
  | val a => val |a|

/-- IEEE `<`: any comparison involving NaN is false. -/
def lt : F32 → F32 → Bool
  | nan, _ => false
  | _, nan => false
  | inf, _ => false
  | _, inf => true
  | ninf, ninf => false
  | ninf, _ => true
  | _, ninf => false
  | val a, val b => decide (a < b)

/-- `f32::EPSILON = 2^-23`. -/
def eps : F32 := val (1 / 2 ^ 23)

end F32

/-- `Watched` (`media.rs`): `No | Partial { seconds, percent } | Yes`.
The `Partial` constructor is named `part` here. -/
inductive Watched where
  | no : Watched
  | part : F32 → F32 → Watched
  | yes : Watched
deriving DecidableEq, Repr

/-- `Watched::percent` (`media.rs`). -/
def Watched.percent : Watched → F32
  | .no => .val 0
  | .part _ p => p
  | .yes => .val 1

/-- `MovieMetadata` (`media.rs`). -/
structure MovieMetadata where
  tmdbId : Nat
  title : String
  year : Nat
  poster : Option String
  released : Option Int
deriving DecidableEq, Repr

/-- `SeriesMetadata` (`media.rs`). -/
structure SeriesMetadata where
  tmdbId : Nat
  title : String
  poster : Option String
  aired : Option Int
deriving DecidableEq, Repr

/-- `SeasonMetadata` (`media.rs`). -/
structure SeasonMetadata where
  seriesTmdbId : Nat
  title : String
  season : Nat
  poster : Option String
  aired : Option Int
  overview : Option String
deriving DecidableEq, Repr

/-- `EpisodeMetadata` (`media.rs`). -/
structure EpisodeMetadata where
  seriesTmdbId : Nat
  title : String
  season : Nat
  episode : Nat
  aired : Int
deriving DecidableEq, Repr

/-- Modelled from the spec: `Video` (§3), shared by the leaf variants.  The
current declaration is absent from the stale `media.rs` snapshot; per the
spec it carries the normalized file path, the `Watched` state, the `added`
timestamp and the optional `last_watched` timestamp. -/
structure Video where
  path : String
  watched : Watched
  added : Int
  lastWatched : Option Int
deriving DecidableEq, Repr

/-- `Uncategorised { video, dont_scrape }`. -/
structure Uncategorised where
  video : Video
  dontScrape : Bool
deriving DecidableEq, Repr

/-- `Movie { video, metadata }`. -/
structure Movie where
  video : Video
  metadata : MovieMetadata
deriving DecidableEq, Repr

/-- `Series { metadata }`. -/
structure Series where
  metadata : SeriesMetadata
deriving DecidableEq, Repr

/-- `Season { metadata, series }`. -/
structure Season where
  metadata : SeasonMetadata
  series : Nat
deriving DecidableEq, Repr

/-- `Episode { video, series, season, metadata }`. -/
structure Episode where
  video : Video
  series : Nat
  season : Nat
  metadata : EpisodeMetadata
deriving DecidableEq, Repr

/-- `Media` (`media.rs`): the tagged union of entity variants. -/
inductive Media where
  | uncategorised : Uncategorised → Media
  | movie : Movie → Media
  | series : Series → Media
  | season : Season → Media
  | episode : Episode → Media
deriving DecidableEq, Repr

/-- Modelled from the spec: `Media::video()` (§3) — `Some` exactly on the
leaf variants `Uncategorised`, `Movie`, `Episode`; `Series`/`Season` carry
no video.  (The stale `media.rs` snapshot has the analogous `path()`.) -/
def Media.video : Media → Option Video
  | .uncategorised u => some u.video
  | .movie m => some m.video
  | .episode e => some e.video
  | _ => none

/-- The dedup key used by `Library::extend`:
`media.video().map(|video| &video.path)`. -/
def Media.videoPath (m : Media) : Option String :=
  m.video.map (·.path)

/-- `Library` (`library.rs`): the id-indexed media store.  The hash map is
embedded as an association list with first-match lookup; `collections` are
not needed by any claim and are omitted. -/
structure Library where
  media : List (Nat × Media)
  nextId : Nat
deriving DecidableEq, Repr

/-- First-match association-list lookup (`HashMap::get`). -/
def lookupM (id : Nat) : List (Nat × Media) → Option Media
  | [] => none
  | (k, v) :: rest => if k = id then some v else lookupM id rest

/-- `HashMap::insert`: replace the value if the key is present, else append. -/
def assocSet (id : Nat) (v : Media) : List (Nat × Media) → List (Nat × Media)
  | [] => [(id, v)]
  | (k, w) :: rest => if k = id then (k, v) :: rest else (k, w) :: assocSet id v rest

/-- `Library::insert` (via `generate_id`): allocate `next_id`, store, return
the id and the new library. -/
def Library.insertM (lib : Library) (m : Media) : Nat × Library :=
  (lib.nextId, ⟨assocSet lib.nextId m lib.media, lib.nextId + 1⟩)

/-- `Library::get`. -/
def Library.get (lib : Library) (id : Nat) : Option Media :=
  lookupM id lib.media

/-- The data-structure invariant maintained by `generate_id`: every stored
key is below `next_id`.  (Holds for every library the program ever builds.) -/
def Library.WF (lib : Library) : Prop :=
  ∀ p ∈ lib.media, p.1 < lib.nextId

instance (lib : Library) : Decidable lib.WF :=
  inferInstanceAs (Decidable (∀ p ∈ lib.media, p.1 < lib.nextId))

/-- One iteration of the `Library::extend` loop: drop the entry when some
stored entry has the same `video().map(|v| &v.path)` key, else insert it. -/
def Library.extendOne (lib : Library) (m : Media) : Library :=
  if lib.media.any (fun p => p.2.videoPath == m.videoPath) then lib
  else (lib.insertM m).2

/-- `Library::extend` (`library.rs`). -/
def Library.extend (lib : Library) : List Media → Library
  | [] => lib
  | m :: rest => (lib.extendOne m).extend rest

/-- Number of stored entries whose video path is `some p`. -/
def Library.pathCount (lib : Library) (p : String) : Nat :=
  (lib.media.filter (fun q => q.2.videoPath == some p)).length

/-- Number of stored entries with no video (Series/Season). -/
def Library.noVideoCount (lib : Library) : Nat :=
  (lib.media.filter (fun q => q.2.videoPath == none)).length

/-! ## Merge engine: `ScrapeResult::insert` (`scrape.rs` 234–321) -/

/-- `SeasonScrapeResult` (`scrape.rs`). -/
structure SeasonScrapeResult where
  metadata : SeasonMetadata
  episodes : List (Nat × EpisodeMetadata)
  unmatched : List EpisodeMetadata
deriving DecidableEq, Repr

/-- `SeriesScrapeResult` (`scrape.rs`). -/
structure SeriesScrapeResult where
  metadata : SeriesMetadata
  seasons : List SeasonScrapeResult
deriving DecidableEq, Repr

/-- `ScrapeResult` (`scrape.rs`). -/
structure ScrapeResult where
  movies : List (Nat × MovieMetadata)
  series : List SeriesScrapeResult
deriving DecidableEq, Repr

/-- One iteration of the movie loop of `ScrapeResult::insert`: if the entity
at `id` is currently `Uncategorised`, overwrite it in place to `Movie`
carrying over the original `Video`; otherwise do nothing. -/
def promoteMovie (id : Nat) (meta : MovieMetadata) (lib : Library) : Library :=
  match lookupM id lib.media with
  | some (.uncategorised u) =>
    { lib with media := assocSet id (.movie ⟨u.video, meta⟩) lib.media }
  | _ => lib

/-- The movie loop of `ScrapeResult::insert`. -/
def insertMovies : List (Nat × MovieMetadata) → Library → Library
  | [], lib => lib
  | (id, meta) :: rest, lib => insertMovies rest (promoteMovie id meta lib)

/-- `library.iter().find_map(...)` looking for a `Series` whose
`metadata.tmdb_id` matches. -/
def findSeries (lib : Library) (tmdb : Nat) : Option Nat :=
  lib.media.findSome? fun p =>
    match p.2 with
    | .series s => if s.metadata.tmdbId = tmdb then some p.1 else none
    | _ => none

/-- `library.iter().find_map(...)` looking for a `Season` with the given
parent series id and season number. -/
def findSeason (lib : Library) (seriesId seasonNum : Nat) : Option Nat :=
  lib.media.findSome? fun p =>
    match p.2 with
    | .season s =>
      if s.series = seriesId ∧ s.metadata.season = seasonNum then some p.1 else none
    | _ => none

/-- One iteration of the episode loop of `ScrapeResult::insert`: promote a
still-`Uncategorised` entity in place to `Episode`, attaching the resolved
series/season ids and carrying over the original `Video`. -/
def promoteEpisode (seriesId seasonId id : Nat) (meta : EpisodeMetadata)
    (lib : Library) : Library :=
  match lookupM id lib.media with
  | some (.uncategorised u) =>
    { lib with media := assocSet id (.episode ⟨u.video, seriesId, seasonId, meta⟩) lib.media }
  | _ => lib

/-- The episode loop of `ScrapeResult::insert`. -/
def insertEpisodes (seriesId seasonId : Nat) :
    List (Nat × EpisodeMetadata) → Library → Library
  | [], lib => lib
  | (id, meta) :: rest, lib =>
    insertEpisodes seriesId seasonId rest (promoteEpisode seriesId seasonId id meta lib)

/-- One iteration of the season loop of `ScrapeResult::insert`: find an
existing `Season` keyed on `(series id, season number)` and reuse it, else
create a new one; then run the episode loop under it. -/
def insertSeason (seriesId : Nat) (ssr : SeasonScrapeResult) (lib : Library) : Library :=
  match findSeason lib seriesId ssr.metadata.season with
  | some seasonId => insertEpisodes seriesId seasonId ssr.episodes lib
  | none =>
    let r := lib.insertM (.season ⟨ssr.metadata, seriesId⟩)
    insertEpisodes seriesId r.1 ssr.episodes r.2

/-- The season loop of `ScrapeResult::insert`. -/
def insertSeasons (seriesId : Nat) : List SeasonScrapeResult → Library → Library
  | [], lib => lib
  | ssr :: rest, lib => insertSeasons seriesId rest (insertSeason seriesId ssr lib)

/-- One iteration of the series loop of `ScrapeResult::insert`: find an
existing `Series` whose external tmdb id matches and reuse it, else create a
new one; then run the season loop under it. -/
def insertSeries (sr : SeriesScrapeResult) (lib : Library) : Library :=
  match findSeries lib sr.metadata.tmdbId with
  | some seriesId => insertSeasons seriesId sr.seasons lib
  | none =>
    let r := lib.insertM (.series ⟨sr.metadata⟩)
    insertSeasons r.1 sr.seasons r.2

/-- The series loop of `ScrapeResult::insert`. -/
def insertSeriesList : List SeriesScrapeResult → Library → Library
  | [], lib => lib
  | sr :: rest, lib => insertSeriesList rest (insertSeries sr lib)

/-- `ScrapeResult::insert` (`scrape.rs`): the movie loop, then the series
loop (with nested season and episode loops). -/
def ScrapeResult.insert (r : ScrapeResult) (lib : Library) : Library :=
  insertSeriesList r.series (insertMovies r.movies lib)

/-- Number of `Series` entities with the given external tmdb id. -/
def Library.seriesCount (lib : Library) (tmdb : Nat) : Nat :=
  (lib.media.filter fun p =>
    match p.2 with
    | .series s => s.metadata.tmdbId == tmdb
    | _ => false).length

/-- Number of `Season` entities keyed on `(series id, season number)`. -/
def Library.seasonCount (lib : Library) (seriesId seasonNum : Nat) : Nat :=
  (lib.media.filter fun p =>
    match p.2 with
    | .season s => s.series == seriesId && s.metadata.season == seasonNum
    | _ => false).length

/-- All ids promoted by a `ScrapeResult` (movie ids, then episode ids). -/
def ScrapeResult.promotedIds (r : ScrapeResult) : List Nat :=
  r.movies.map Prod.fst ++
    r.series.flatMap fun sr => sr.seasons.flatMap fun ssr => ssr.episodes.map Prod.fst

/-! ## Watched aggregation and ordering helpers (`util.rs`) -/

/-- `find_episodes` (`util.rs`): the stored episodes whose `season`
back-reference equals the given id, in store order. -/
def findEpisodes (seasonId : Nat) (lib : Library) : List (Nat × Episode) :=
  lib.media.filterMap fun p =>
    match p.2 with
    | .episode e => if e.season = seasonId then some (p.1, e) else none
    | _ => none

/-- `find_seasons` (`util.rs`): the stored seasons whose `series`
back-reference equals the given id, in store order. -/
def findSeasons (seriesId : Nat) (lib : Library) : List (Nat × Season) :=
  lib.media.filterMap fun p =>
    match p.2 with
    | .season s => if s.series = seriesId then some (p.1, s) else none
    | _ => none

/-- `find_all_episodes` (`util.rs`): episodes of every season of a series. -/
def findAllEpisodes (seriesId : Nat) (lib : Library) : List (Nat × Episode) :=
  (findSeasons seriesId lib).flatMap fun q => findEpisodes q.1 lib

/-- The epsilon classification shared by the two aggregators
(`calculate_season_watched` / `calculate_series_watched`):
`total < EPSILON → No`, `|total - 1| < EPSILON → Yes`, else
`Partial { seconds: 0.0, percent: total }`. -/
def classifyTotal (total : F32) : Watched :=
  if (total.lt F32.eps) = true then .no
  else if ((total.sub (.val 1)).abs.lt F32.eps) = true then .yes
  else .part (.val 0) total

/-- `calculate_season_watched` (`util.rs`): fold `(count, percent_sum)` over
the child episodes, divide, classify.  With no episodes the division is
`0.0 / 0` = NaN. -/
def calculateSeasonWatched (seasonId : Nat) (lib : Library) : Watched :=
  let acc := (findEpisodes seasonId lib).foldl
    (fun acc q => (acc.1 + 1, acc.2.add q.2.video.watched.percent)) (0, F32.val 0)
  classifyTotal (acc.2.div (.val acc.1))

/-- `calculate_series_watched` (`util.rs`): fold over the child seasons'
computed watched percents, divide, classify. -/
def calculateSeriesWatched (seriesId : Nat) (lib : Library) : Watched :=
  let acc := (findSeasons seriesId lib).foldl
    (fun acc q => (acc.1 + 1, acc.2.add (calculateSeasonWatched q.1 lib).percent))
    (0, F32.val 0)
  classifyTotal (acc.2.div (.val acc.1))

/-- `calculate_watched` (`util.rs`): a leaf's stored state, or the derived
aggregate for `Series`/`Season`; `None` for an absent id. -/
def calculateWatched (id : Nat) (lib : Library) : Option Watched :=
  (lookupM id lib.media).map fun m =>
    match m with
    | .uncategorised u => u.video.watched
    | .movie mv => mv.video.watched
    | .episode e => e.video.watched
    | .series _ => calculateSeriesWatched id lib
    | .season _ => calculateSeasonWatched id lib

/-- Rust `Option<T> : Ord` comparison used by `max_by_key` on
`Option<DateTime>` keys: `None` is smaller than every `Some`. -/
def optIntLe : Option Int → Option Int → Bool
  | none, _ => true
  | some _, none => false
  | some a, some b => decide (a ≤ b)

/-- Rust `Iterator::max_by_key`: the last element with the maximal key
(`None` on an empty iterator). -/
def maxByKey (key : Nat × Episode → Option Int) :
    List (Nat × Episode) → Option (Nat × Episode)
  | [] => none
  | x :: rest =>
    some (rest.foldl (fun best y => if optIntLe (key best) (key y) then y else best) x)

/-- `season_last_watched` (`util.rs`). -/
def seasonLastWatched (seasonId : Nat) (lib : Library) : Option (Nat × Episode) :=
  maxByKey (fun q => q.2.video.lastWatched) (findEpisodes seasonId lib)

/-- `series_last_watched` (`util.rs`). -/
def seriesLastWatched (seriesId : Nat) (lib : Library) : Option (Nat × Episode) :=
  maxByKey (fun q => q.2.video.lastWatched) (findAllEpisodes seriesId lib)

/-- `season_date_added` (`util.rs`): maximal `added` over the season's
episodes.  (Defined by the source but never called by `date_added`.) -/
def seasonDateAdded (seasonId : Nat) (lib : Library) : Option (Nat × Episode) :=
  maxByKey (fun q => some q.2.video.added) (findEpisodes seasonId lib)

/-- `series_date_added` (`util.rs`): maximal `added` over the series'
episodes.  (Defined by the source but never called by `date_added`.) -/
def seriesDateAdded (seriesId : Nat) (lib : Library) : Option (Nat × Episode) :=
  maxByKey (fun q => some q.2.video.added) (findAllEpisodes seriesId lib)

/-- `last_watched` (`util.rs`): a leaf's `last_watched`, or for composites
the `last_watched` of the descendant episode with maximal `last_watched`. -/
def lastWatched (id : Nat) (lib : Library) : Option Int :=
  (lookupM id lib.media).bind fun m =>
    match m.video with
    | some v => v.lastWatched
    | none =>
      match m with
      | .series _ => (seriesLastWatched id lib).bind fun q => q.2.video.lastWatched
      | .season _ => (seasonLastWatched id lib).bind fun q => q.2.video.lastWatched
      | _ => none

/-- `date_added` (`util.rs`): a leaf's `added`; for composites the source
takes the `added` of the episode returned by `series_last_watched` /
`season_last_watched` (the maximal-`last_watched` episode, not the
maximal-`added` one). -/
def dateAdded (id : Nat) (lib : Library) : Option Int :=
  (lookupM id lib.media).bind fun m =>
    match m.video with
    | some v => some v.added
    | none =>
      match m with
      | .series _ => (seriesLastWatched id lib).map fun q => q.2.video.added
      | .season _ => (seasonLastWatched id lib).map fun q => q.2.video.added
      | _ => none

/-- The maximal `added` timestamp over a season's child episodes — what
claim C8 (and the spec) say `date_added` returns for a `Season`. -/
def maxAddedOverSeason (seasonId : Nat) (lib : Library) : Option Int :=
  ((findEpisodes seasonId lib).map fun q => q.2.video.added).max?

/-- Modelled from the spec: the current `Media::title()` returning `String`
(the stale `media.rs` snapshot has an `Option<String>` version; `full_title`
in `util.rs` formats the result with `{}`, so the current version is total).
`Uncategorised` titles by file name; only the `Series` arm (`metadata.title`)
is ever reached through `full_title`'s unwrap. -/
def Media.title : Media → String
  | .uncategorised u => (u.video.path.splitOn "/").getLastD u.video.path
  | .movie m => m.metadata.title
  | .series s => s.metadata.title
  | .season s => "Season " ++ toString s.metadata.season
  | .episode e => e.metadata.title

/-- Rust `{:02}` formatting. -/
def pad2 (n : Nat) : String :=
  if n < 10 then "0" ++ toString n else toString n

/-- `full_title` (`util.rs`), with `none` modelling the panic of
`library.get(x.series).unwrap()` on a dangling series back-reference. -/
def fullTitle (id : Nat) (lib : Library) : Option String :=
  match lookupM id lib.media with
  | none => some "Unknown Media"
  | some (.movie m) =>
    some (m.metadata.title ++ " (" ++ toString m.metadata.year ++ ")")
  | some (.episode e) =>
    (lookupM e.series lib.media).map fun sm =>
      sm.title ++ " S" ++ pad2 e.metadata.season ++ "E" ++ pad2 e.metadata.episode
        ++ " - " ++ e.metadata.title
  | some (.season s) =>
    (lookupM s.series lib.media).map fun sm =>
      sm.title ++ " S" ++ pad2 s.metadata.season ++ " - " ++ s.metadata.title
  | some m => some m.title

/-- The back-reference invariant: every `Episode`'s and every `Season`'s
`series` id refers to an entity present in the library.  (`full_title` only
dereferences the `series` back-references.) -/
def Library.BackRefsOk (lib : Library) : Prop :=
  ∀ p ∈ lib.media,
    (match p.2 with
      | .episode e => (lookupM e.series lib.media).isSome
      | .season s => (lookupM s.series lib.media).isSome
      | _ => true) = true

instance (lib : Library) : Decidable lib.BackRefsOk :=
  inferInstanceAs (Decidable (∀ p ∈ lib.media, _ = true))

/-! ## Filename classifier: `detect_media_type` (`scrape.rs` 26–65)

The three anchored patterns are embedded directly.  The `regex` crate uses
Perl-style leftmost-first semantics: the greedy group `([a-z\d\s]+)` tries
the longest repetition first and backtracks; everything after it in these
patterns is deterministic (each `\d+` is followed by a non-digit literal, and
`\d{4}` admits no shorter alternative), so the chosen match is the one with
the largest group-1 length for which the deterministic tail matches.  Only
ASCII is modelled (`\d`/`\s` are Unicode classes in the `regex` crate, but no
claim involves non-ASCII input). -/

/-- `MediaType` (`scrape.rs`). -/
inductive MediaType where
  | unknown : MediaType
  | movie : String → Nat → MediaType
  | episode : String → Nat → Nat → MediaType
deriving DecidableEq, Repr

/-- `[a-zA-Z\d]` (the complement of `RE_ALPHANUM`). -/
def isAlnum (c : Char) : Bool :=
  c.isAlpha || c.isDigit

/-- `RE_ALPHANUM.replace_all(filename, " ")`: collapse every maximal run of
non-alphanumeric characters to a single space.  The flag records whether the
previous character belonged to a non-alphanumeric run. -/
def collapseRuns : Bool → List Char → List Char
  | _, [] => []
  | inRun, c :: rest =>
    if isAlnum c then c :: collapseRuns false rest
    else if inRun then collapseRuns true rest
    else ' ' :: collapseRuns true rest

/-- The normalization step of `detect_media_type`: collapse runs, then
`to_lowercase`. -/
def cleanName (s : String) : List Char :=
  (collapseRuns false s.data).map Char.toLower

/-- The character class `[a-z\d\s]` (ASCII). -/
def cls1 (c : Char) : Bool :=
  ('a' ≤ c && c ≤ 'z') || c.isDigit || c = ' ' || c = '\t' || c = '\n' || c = '\r'
    || c = '\x0b' || c = '\x0c'

/-- Digits of a capture parsed as a number, `none` outside `u16` (where the
source's `.parse::<u16>().unwrap()` panics). -/
def parseU16 (ds : List Char) : Option Nat :=
  let n := ds.foldl (fun n c => n * 10 + (c.toNat - '0'.toNat)) 0
  if n < 65536 then some n else none

/-- Tail of the movie pattern after `([a-z\d\s]+) `: `(\d{4}) ` — exactly
four digits, a space, the captured digits returned. -/
def movieTail (cs : List Char) : Option (List Char) :=
  match cs with
  | d1 :: d2 :: d3 :: d4 :: ' ' :: _ =>
    if d1.isDigit && d2.isDigit && d3.isDigit && d4.isDigit then
      some [d1, d2, d3, d4]
    else none
  | _ => none

/-- `s(\d+)e(\d+) `: literal `s`, nonempty digits, literal `e`, nonempty
digits, a space; returns the two captures. -/
def seTail (cs : List Char) : Option (List Char × List Char) :=
  match cs with
  | 's' :: rest =>
    let ds1 := rest.takeWhile Char.isDigit
    if ds1.isEmpty then none
    else
      match rest.drop ds1.length with
      | 'e' :: rest2 =>
        let ds2 := rest2.takeWhile Char.isDigit
        if ds2.isEmpty then none
        else
          match rest2.drop ds2.length with
          | ' ' :: _ => some (ds1, ds2)
          | _ => none
      | _ => none
  | _ => none

/-- Tail of the first episode pattern after `([a-z\d\s]+) `:
`\d{4} s(\d+)e(\d+) `. -/
def yearSeTail (cs : List Char) : Option (List Char × List Char) :=
  match cs with
  | d1 :: d2 :: d3 :: d4 :: ' ' :: rest =>
    if d1.isDigit && d2.isDigit && d3.isDigit && d4.isDigit then seTail rest
    else none
  | _ => none

/-- Greedy backtracking for `^([a-z\d\s]+) <tail>`: try group-1 lengths from
`p` down to 1; at each length the next character must be the literal space
and the deterministic tail must match the remainder. -/
def searchSplit (tail : List Char → Option α) (cs : List Char) : Nat → Option (Nat × α)
  | 0 => none
  | p + 1 =>
    match cs.drop (p + 1) with
    | ' ' :: rest =>
      match tail rest with
      | some a => some (p + 1, a)
      | none => searchSplit tail cs p
    | _ => searchSplit tail cs p

/-- Match `^([a-z\d\s]+) <tail>` against `cs`, returning the group-1 capture
and the tail captures.  Group 1 is at most the longest `[a-z\d\s]` prefix. -/
def matchGroup1 (tail : List Char → Option α) (cs : List Char) :
    Option (List Char × α) :=
  (searchSplit tail cs (cs.takeWhile cls1).length).map fun r => (cs.take r.1, r.2)

/-- `detect_media_type` (`scrape.rs`): normalize, try the episode patterns
(year variant first), then the movie pattern; `none` models the panic of
`.parse::<u16>().unwrap()` on an out-of-range capture. -/
def detectMediaType (s : String) : Option MediaType :=
  let clean := cleanName s
  match matchGroup1 yearSeTail clean with
  | some r =>
    match parseU16 r.2.1, parseU16 r.2.2 with
    | some sn, some en => some (.episode r.1.asString sn en)
    | _, _ => none
  | none =>
    match matchGroup1 seTail clean with
    | some r =>
      match parseU16 r.2.1, parseU16 r.2.2 with
      | some sn, some en => some (.episode r.1.asString sn en)
      | _, _ => none
    | none =>
      match matchGroup1 movieTail clean with
      | some r =>
        match parseU16 r.2 with
        | some y => some (.movie r.1.asString y)
        | none => none
      | none => some .unknown

/-! ## Scrape aggregator: `scrape_all` / `find_or_insert` (`scrape.rs` 323–415)

The `Scraper` collaborator is embedded as three pure lookup functions; the
outer `Option` models `anyhow::Result` (`none` = `Err`), the inner one the
"not found" result.  `scrape_all` is instrumented with a log of the series
and season lookups it issues, so that "at most once" claims are statements
about the log.  A season-call log entry records the accumulator entry's
series title together with the actual call arguments
`(series.metadata.tmdb_id, season)`. -/

/-- The `Scraper` trait (`scrape.rs` 67–85) as a pure oracle. -/
structure ScraperModel where
  movieLookup : String → Nat → Option (Option MovieMetadata)
  seriesLookup : String → Option (Option SeriesMetadata)
  seasonLookup : Nat → Nat → Option (Option (SeasonMetadata × List EpisodeMetadata))

/-- Log of the lookups issued during one `scrape_all` batch. -/
structure ScrapeCallLog where
  seriesCalls : List String
  seasonCalls : List (String × Nat × Nat)
deriving DecidableEq, Repr

/-- `Iterator::position` (first index satisfying the predicate). -/
def position? (p : α → Bool) : List α → Option Nat
  | [] => none
  | x :: rest => if p x then some 0 else (position? p rest).map (· + 1)

/-- Replace the element at an index (out-of-range indices leave the list
unchanged; all uses are in range). -/
def modifyAt (i : Nat) (f : α → α) (l : List α) : List α :=
  match l, i with
  | [], _ => []
  | x :: rest, 0 => f x :: rest
  | x :: rest, i + 1 => x :: modifyAt i f rest

/-- The episode-matching tail of the `scrape_all` loop body: look up season
`j` of accumulator entry `i`, search its `unmatched` list by episode number,
and on a hit move the metadata from `unmatched` to `episodes`. -/
def matchEpisodeAt (id episodeNum i j : Nat) (r : ScrapeResult) (log : ScrapeCallLog) :
    ScrapeResult × ScrapeCallLog :=
  match (r.series[i]?.map (·.seasons)).getD [] |>.get? j with
  | none => (r, log)
  | some season =>
    match position? (fun e => e.episode == episodeNum) season.unmatched with
    | none => (r, log)
    | some k =>
      match season.unmatched[k]? with
      | none => (r, log)
      | some meta =>
        ({ r with
            series := modifyAt i (fun sr =>
              { sr with
                  seasons := modifyAt j (fun s =>
                    { s with
                        unmatched := s.unmatched.eraseIdx k
                        episodes := s.episodes ++ [(id, meta)] }) sr.seasons })
              r.series },
          log)

/-- The episode-candidate body of the `scrape_all` loop, entered with the
index of the accumulator entry chosen by `find_or_insert` for the series:
find-or-fetch the season, then match the episode number against the season's
`unmatched` list. -/
def scrapeEpisodeInSeries (sc : ScraperModel) (id : Nat) (seasonNum episodeNum : Nat)
    (i : Nat) (r : ScrapeResult) (log : ScrapeCallLog) : ScrapeResult × ScrapeCallLog :=
  match r.series[i]? with
  | none => (r, log)
  | some sr =>
    match position? (fun s => s.metadata.season == seasonNum) sr.seasons with
    | some j => matchEpisodeAt id episodeNum i j r log
    | none =>
      let log := { log with
        seasonCalls := log.seasonCalls ++ [(sr.metadata.title, sr.metadata.tmdbId, seasonNum)] }
      match sc.seasonLookup sr.metadata.tmdbId seasonNum with
      | some (some se) =>
        let r := { r with
          series := modifyAt i (fun sr =>
            { sr with seasons := sr.seasons ++ [⟨se.1, [], se.2⟩] }) r.series }
        matchEpisodeAt id episodeNum i sr.seasons.length r log
      | _ => (r, log)

/-- One iteration of the `scrape_all` loop; `none` models the
`.parse().unwrap()` panic inside `detect_media_type`. -/
def scrapeStep (sc : ScraperModel) (st : ScrapeResult × ScrapeCallLog)
    (item : Nat × String) : Option (ScrapeResult × ScrapeCallLog) :=
  let r := st.1
  let log := st.2
  match detectMediaType item.2 with
  | none => none
  | some .unknown => some (r, log)
  | some (.movie title year) =>
    match sc.movieLookup title year with
    | some (some meta) => some ({ r with movies := r.movies ++ [(item.1, meta)] }, log)
    | _ => some (r, log)
  | some (.episode seriesTitle seasonNum episodeNum) =>
    match position? (fun sr => sr.metadata.title == seriesTitle) r.series with
    | some i => some (scrapeEpisodeInSeries sc item.1 seasonNum episodeNum i r log)
    | none =>
      let log := { log with seriesCalls := log.seriesCalls ++ [seriesTitle] }
      match sc.seriesLookup seriesTitle with
      | some (some meta) =>
        let r := { r with series := r.series ++ [⟨meta, []⟩] }
        some (scrapeEpisodeInSeries sc item.1 seasonNum episodeNum
          (r.series.length - 1) r log)
      | _ => some (r, log)

/-- The `scrape_all` loop over the remaining batch. -/
def scrapeAllGo (sc : ScraperModel) : List (Nat × String) →
    ScrapeResult × ScrapeCallLog → Option (ScrapeResult × ScrapeCallLog)
  | [], st => some st
  | item :: rest, st =>
    match scrapeStep sc st item with
    | none => none
    | some st => scrapeAllGo sc rest st

/-- `scrape_all` (`scrape.rs`), instrumented with the call log. -/
def scrapeAll (sc : ScraperModel) (media : List (Nat × String)) :
    Option (ScrapeResult × ScrapeCallLog) :=
  scrapeAllGo sc media (⟨[], []⟩, ⟨[], []⟩)

/-- The series-lookup titles issued by a batch (empty when the batch
panicked). -/
def seriesCallsOf (o : Option (ScrapeResult × ScrapeCallLog)) : List String :=
  match o with
  | some st => st.2.seriesCalls
  | none => []

/-- The `(series title, season number)` keys of the season lookups issued by
a batch. -/
def seasonKeysOf (o : Option (ScrapeResult × ScrapeCallLog)) : List (String × Nat) :=
  match o with
  | some st => st.2.seasonCalls.map fun c => (c.1, c.2.2)
  | none => []

/-- The scraper discipline under which the batch-scoped memoization works:
every series lookup succeeds and returns metadata titled exactly by the
queried title, and every season lookup succeeds and returns metadata
numbered exactly by the queried season. -/
def GoodScraper (sc : ScraperModel) : Prop :=
  (∀ t, ∃ m, sc.seriesLookup t = some (some m) ∧ m.title = t) ∧
  (∀ i n, ∃ se, sc.seasonLookup i n = some (some se) ∧ se.1.season = n)

/-! ## Filesystem scanner: `scan_directories` / `scan_file` (`util.rs` 12–69)

The filesystem is embedded as a tree of directory listings.  Each listing is
an `Except Unit (List FSEntry)` — `error` models `std::fs::read_dir`
failing.  An entry is either an unreadable directory entry (`Err(entry)`,
skipped by the source), an entry whose `file_type()` probe fails (the source
applies `?`, aborting the scan), a subdirectory (pushed on the BFS queue),
or a file carrying the outcome of `path.normalize()` (`error` models a
normalization failure, which `scan_file` turns into an `Err` that the caller
logs and skips). -/

deriving instance DecidableEq for Except

/-- A directory entry as observed by the `scan_directories` loop. -/
inductive FSEntry where
  | errEntry : FSEntry
  | errType : String → FSEntry
  | dir : String → Except Unit (List FSEntry) → FSEntry
  | file : String → Except Unit String → FSEntry

/-- Split a character list on a separator (groups between separators). -/
def splitOnChar (sep : Char) : List Char → List (List Char)
  | [] => [[]]
  | x :: rest =>
    match splitOnChar sep rest with
    | [] => [[]]
    | g :: gs => if x = sep then [] :: g :: gs else (x :: g) :: gs

/-- `Path::extension()` followed by `to_str().unwrap().to_string()`: the
part of the final path component after its last dot (`none` when the
component has no dot beyond a leading one). -/
def extOf (p : String) : Option String :=
  let name := (splitOnChar '/' p.data).getLastD p.data
  let parts := splitOnChar '.' name
  match parts with
  | [] => none
  | [_] => none
  | [] :: [_] => none
  | _ => (parts.getLast?).map List.asString

/-- `SUPPORTED_EXTENSIONS`. -/
def supportedExts : List String := ["mp4", "mkv"]

/-- `scan_file` (`util.rs` 12–33): normalize the path, require a supported
extension, build the fresh `Uncategorised` entry (`watched = No`,
`added = now`, `dont_scrape = false`). -/
def scanFile (now : Int) (norm : Except Unit String) : Except Unit Media :=
  match norm with
  | .error e => .error e
  | .ok path =>
    match extOf path with
    | none => .error ()
    | some ext =>
      if (ext.data.map Char.toLower).asString ∈ supportedExts then
        .ok (.uncategorised ⟨⟨path, .no, now, none⟩, false⟩)
      else .error ()

/-- The `scan_directories` loop (`util.rs` 35–69): the first argument is the
listing currently being iterated, the second the queue of pending listings,
the third the output accumulated so far.  Unreadable entries and failing
`scan_file` calls are skipped; a failing `read_dir` (an `error` listing) or
a failing `file_type` probe propagates via `?` and aborts. -/
def scanGo (now : Int) :
    List FSEntry → List (Except Unit (List FSEntry)) → List Media →
    Except Unit (List Media)
  | [], [], out => .ok out
  | [], .error e :: _, _ => .error e
  | [], .ok entries :: queue, out => scanGo now entries queue out
  | .errEntry :: es, queue, out => scanGo now es queue out
  | .errType _ :: _, _, _ => .error ()
  | .dir _ listing :: es, queue, out => scanGo now es (queue ++ [listing]) out
  | .file p norm :: es, queue, out =>
    if out.any (fun m => m.videoPath == some p) then scanGo now es queue out
    else
      match scanFile now norm with
      | .ok media => scanGo now es queue (out ++ [media])
      | .error _ => scanGo now es queue out
termination_by cur queue _ =>
  (cur.map sizeOf).sum + (queue.map sizeOf).sum
decreasing_by
  all_goals
    have hs : ∀ (l : List FSEntry), (l.map sizeOf).sum ≤ sizeOf l := by
      intro l
      induction l with
      | nil => simp
      | cons x xs ih =>
        simp only [List.map_cons, List.sum_cons, List.cons.sizeOf_spec]
        omega
  all_goals
    simp only [List.map_cons, List.map_append, List.map_nil, List.sum_cons,
      List.sum_append, List.sum_nil, FSEntry.errEntry.sizeOf_spec,
      FSEntry.errType.sizeOf_spec, FSEntry.dir.sizeOf_spec, FSEntry.file.sizeOf_spec,
      Except.ok.sizeOf_spec, Except.error.sizeOf_spec]
  all_goals first
    | omega
    | (have h2 := hs entries; omega)

/-- `scan_directories` (`util.rs`): breadth-first over the root listings. -/
def scanDirectories (now : Int) (roots : List (Except Unit (List FSEntry))) :
    Except Unit (List Media) :=
  scanGo now [] roots []

mutual

/-- No entry reachable from this entry aborts the scan: no failing
`file_type` probe and no unreadable nested directory listing. -/
def entryClean : FSEntry → Bool
  | .errEntry => true
  | .errType _ => false
  | .file _ _ => true
  | .dir _ (.error _) => false
  | .dir _ (.ok es) => entriesClean es

/-- All entries of a listing are clean. -/
def entriesClean : List FSEntry → Bool
  | [] => true
  | e :: rest => entryClean e && entriesClean rest

end

/-- No listing in this queue aborts the scan. -/
def listingClean : Except Unit (List FSEntry) → Bool
  | .error _ => false
  | .ok es => entriesClean es

/-- All listings of a queue are clean. -/
def queueClean : List (Except Unit (List FSEntry)) → Bool
  | [] => true
  | l :: rest => listingClean l && queueClean rest

/-! ## Concrete fixtures used by the witnesses and counterexamples -/

/-- A `Season` metadata fixture. -/
def seasonMetaFx : SeasonMetadata := ⟨7, "Season One", 1, none, none, none⟩

/-- A library holding one `Season` with no child episodes. -/
def libEmptySeason : Library := ⟨[(1, .season ⟨seasonMetaFx, 2⟩)], 5⟩

/-- Episode metadata fixture. -/
def epMetaFx (n : Nat) : EpisodeMetadata := ⟨7, "Ep", 1, n, 0⟩

/-- An episode added at time 5, never watched. -/
def epAdded5 : Episode := ⟨⟨"a.mkv", .no, 5, none⟩, 2, 10, epMetaFx 1⟩

/-- An episode added at time 3, last watched at time 10. -/
def epAdded3 : Episode := ⟨⟨"b.mkv", .no, 3, some 10⟩, 2, 10, epMetaFx 2⟩

/-- A library with a season (id 10) whose episodes were added at times 5 and
3; only the latter has ever been watched (at time 10). -/
def libSeasonAdded : Library :=
  ⟨[(10, .season ⟨seasonMetaFx, 2⟩), (11, .episode epAdded5), (12, .episode epAdded3)], 20⟩

/-- A scraper whose series lookup always succeeds with "not found"
(`Ok(None)`), and whose other lookups fail. -/
def scSeriesMiss : ScraperModel :=
  ⟨fun _ _ => none, fun _ => some none, fun _ _ => none⟩

/-- Two files of the same series, one batch. -/
def batchSameSeries : List (Nat × String) :=
  [(1, "Show.S01E01.mkv"), (2, "Show.S01E02.mkv")]

/-- A scraper satisfying `GoodScraper`: every series lookup succeeds and is
titled by its key, every season lookup succeeds and is numbered by its key. -/
def scMemo : ScraperModel :=
  ⟨fun _ _ => none,
   fun t => some (some ⟨42, t, none, none⟩),
   fun i n => some (some (⟨i, "S", n, none, none, none⟩,
     [⟨i, "E1", n, 1, 0⟩, ⟨i, "E2", n, 2, 0⟩]))⟩

/-- A three-episode batch over two seasons of one series. -/
def batchTwoSeasons : List (Nat × String) :=
  [(1, "Show.S01E01.mkv"), (2, "Show.S01E02.mkv"), (3, "Show.S02E01.mkv")]

/-- A readable video file entry. -/
def fsGoodFile : FSEntry := .file "/a/x.mkv" (.ok "/a/x.mkv")

/-- Two root directories: the first readable with one good video file, the
second failing `read_dir`. -/
def rootsOneBad : List (Except Unit (List FSEntry)) :=
  [.ok [fsGoodFile], .error ()]

/-- The entry `scan_file` produces for `fsGoodFile` at time 0. -/
def mediaGoodFile : Media :=
  .uncategorised ⟨⟨"/a/x.mkv", .no, 0, none⟩, false⟩

/-- A clean root set: a good file, an unreadable entry, a file whose
normalization fails, a non-video file, and a readable subdirectory. -/
def rootsClean : List (Except Unit (List FSEntry)) :=
  [.ok [fsGoodFile, .errEntry, .file "/a/y.mkv" (.error ()),
        .file "/a/n.txt" (.ok "/a/n.txt"),
        .dir "/a/b" (.ok [.file "/a/b/z.mp4" (.ok "/a/b/z.mp4")])]]

/-- A library whose only entity is an `Episode` with a dangling `series`
back-reference. -/
def danglingLib : Library :=
  ⟨[(1, .episode ⟨⟨"e.mkv", .no, 0, none⟩, 99, 98, epMetaFx 1⟩)], 2⟩

/-- A well-back-referenced library: a series, its season, its episode. -/
def wellRefLib : Library :=
  ⟨[(1, .series ⟨⟨7, "Show", none, none⟩⟩),
    (2, .season ⟨seasonMetaFx, 1⟩),
    (3, .episode ⟨⟨"e.mkv", .no, 0, none⟩, 1, 2, epMetaFx 1⟩)], 4⟩

/-- An uncategorised entry at id 1 with path `f1`. -/
def uncatF1 : Uncategorised := ⟨⟨"f1.mkv", .no, 0, none⟩, false⟩

/-- An uncategorised entry at id 2 with path `f2`. -/
def uncatF2 : Uncategorised := ⟨⟨"f2.mkv", .yes, 1, some 4⟩, false⟩

/-- A library with two uncategorised entries. -/
def libTwoUncat : Library :=
  ⟨[(1, .uncategorised uncatF1), (2, .uncategorised uncatF2)], 3⟩

/-- A scrape result resolving id 1 to a movie and id 2 to an episode of a
new series/season. -/
def scrapeResFx : ScrapeResult :=
  ⟨[(1, ⟨99, "M", 2000, none, none⟩)],
   [⟨⟨42, "Show", none, none⟩,
     [⟨⟨42, "S1", 1, none, none, none⟩, [(2, ⟨42, "E1", 1, 1, 0⟩)], []⟩]⟩]⟩

/-! ## Predicates used in theorem statements and proofs -/

/-- The entity at `id` (if any) is not `Uncategorised`. -/
def notUncatAt (lib : Library) (id : Nat) : Prop :=
  ∀ u, lookupM id lib.media ≠ some (.uncategorised u)

/-- What a merge pass may do to the store: non-`Uncategorised` entities are
frozen, an `Uncategorised` entity keeps its id and its `Video` (possibly
promoted to `Movie`/`Episode`), fresh ids receive only `Series`/`Season`
entities, and an already-resolvable series/season stays resolvable to the
same id. -/
structure Evolves (a b : Library) : Prop where
  frozen : ∀ id v, lookupM id a.media = some v → (∀ u, v ≠ .uncategorised u) →
    lookupM id b.media = some v
  uncatFate : ∀ id u, lookupM id a.media = some (.uncategorised u) →
    lookupM id b.media = some (.uncategorised u) ∨
      (∃ m, lookupM id b.media = some (.movie ⟨u.video, m⟩)) ∨
      (∃ sid seid em, lookupM id b.media = some (.episode ⟨u.video, sid, seid, em⟩))
  newOnly : ∀ id, lookupM id a.media = none →
    lookupM id b.media = none ∨
      (∃ s, lookupM id b.media = some (.series s)) ∨
      (∃ s, lookupM id b.media = some (.season s))
  findS : ∀ t sid, findSeries a t = some sid → findSeries b t = some sid
  findSe : ∀ sid n k, findSeason a sid n = some k → findSeason b sid n = some k

/-- The post-state of a merge pass for one `SeasonScrapeResult` under a
resolved series id: the season resolves and its episodes are no longer
`Uncategorised`. -/
def SatSeason (lib : Library) (seriesId : Nat) (ssr : SeasonScrapeResult) : Prop :=
  ∃ seid, findSeason lib seriesId ssr.metadata.season = some seid ∧
    ∀ q ∈ ssr.episodes, notUncatAt lib q.1

/-- The post-state of a merge pass for one `SeriesScrapeResult`. -/
def SatSeries (lib : Library) (sr : SeriesScrapeResult) : Prop :=
  ∃ sid, findSeries lib sr.metadata.tmdbId = some sid ∧
    ∀ ssr ∈ sr.seasons, SatSeason lib sid ssr

/-- The post-state of a full merge pass: everything in the result is already
resolved in the store. -/
def Sat (lib : Library) (r : ScrapeResult) : Prop :=
  (∀ q ∈ r.movies, notUncatAt lib q.1) ∧ ∀ sr ∈ r.series, SatSeries lib sr

/-- Whether a `Media` value is the `Uncategorised` variant. -/
def Media.isUncat : Media → Bool
  | .uncategorised _ => true
  | _ => false

/-- The `(video, metadata)` payload of an `Episode` entity. -/
def epPayload : Media → Option (Video × EpisodeMetadata)
  | .episode e => some (e.video, e.metadata)
  | _ => none

/-- An id that was previously absent may only have received a `Series` or a
`Season` entity (or still be absent). -/
def newEntryOk : Option Media → Bool
  | none => true
  | some (.series _) => true
  | some (.season _) => true
  | _ => false

/-- The promoted ids of one `SeasonScrapeResult`. -/
def epIdsOfSeason (ssr : SeasonScrapeResult) : List Nat :=
  ssr.episodes.map Prod.fst

/-- The promoted ids of one `SeriesScrapeResult`. -/
def epIdsOfSeries (sr : SeriesScrapeResult) : List Nat :=
  sr.seasons.flatMap epIdsOfSeason

/-- The video paths of a list of entries (video-less entries contribute
nothing). -/
def pathsOf (ms : List Media) : List String :=
  ms.filterMap Media.videoPath

/-- The library stores at least one video-less entity (a Series or a
Season). -/
def Library.hasVideoless (lib : Library) : Prop :=
  lib.media.any (fun p => p.2.videoPath == none) = true

instance (lib : Library) : Decidable lib.hasVideoless :=
  inferInstanceAs (Decidable (_ = true))

/-- The memoization-relevant shape of a scrape accumulator: for each series
entry its title, its tmdb id and its season numbers, in order. -/
def seriesShape (r : ScrapeResult) : List (String × Nat × List Nat) :=
  r.series.map fun sr => (sr.metadata.title, sr.metadata.tmdbId, sr.seasons.map (·.metadata.season))

/-- The `(series title, season number)` keys of a call log. -/
def seasonKeysL (log : ScrapeCallLog) : List (String × Nat) :=
  log.seasonCalls.map fun c => (c.1, c.2.2)

/-- The titles of a scrape-accumulator shape. -/
def shapeTitles (sh : List (String × Nat × List Nat)) : List String :=
  sh.map (·.1)

/-- The `(title, season number)` pairs present in a scrape-accumulator
shape. -/
def shapeKeys (sh : List (String × Nat × List Nat)) : List (String × Nat) :=
  sh.flatMap fun e => e.2.2.map fun n => (e.1, n)

/-- The memoization invariant of the `scrape_all` loop under a
`GoodScraper`: the series calls are exactly the accumulator titles (in
order), the titles are distinct, each entry's season numbers are distinct,
and the season-call keys are a permutation of the accumulator's
`(title, season)` pairs. -/
def ScrapeInv (r : ScrapeResult) (log : ScrapeCallLog) : Prop :=
  log.seriesCalls = shapeTitles (seriesShape r) ∧
  (shapeTitles (seriesShape r)).Nodup ∧
  (∀ e ∈ seriesShape r, e.2.2.Nodup) ∧
  (seasonKeysL log).Perm (shapeKeys (seriesShape r))

/-! # Theorems

Shared helper lemmas first, then one theorem per claim (with its witness or
counterexample where required). -/

theorem lookupM_mem {id : Nat} {l : List (Nat × Media)} {v : Media}
    (h : lookupM id l = some v) : (id, v) ∈ l := by
  induction l with
  | nil => simp [lookupM] at h
  | cons p rest ih =>
    obtain ⟨k', v'⟩ := p
    rw [lookupM] at h
    by_cases hk : k' = id
    · rw [if_pos hk] at h
      injection h with h
      subst hk
      subst h
      exact List.mem_cons_self _ _
    · rw [if_neg hk] at h
      exact List.mem_cons_of_mem _ (ih h)

theorem lookupM_append_left {id : Nat} {l l2 : List (Nat × Media)} {v : Media}
    (h : lookupM id l = some v) : lookupM id (l ++ l2) = some v := by
  induction l with
  | nil => simp [lookupM] at h
  | cons p rest ih =>
    rw [lookupM] at h
    rw [List.cons_append, lookupM]
    by_cases hk : p.1 = id
    · rw [if_pos hk] at h ⊢
      exact h
    · rw [if_neg hk] at h ⊢
      exact ih h

theorem lookupM_append_none {id : Nat} {l l2 : List (Nat × Media)}
    (h : lookupM id l = none) : lookupM id (l ++ l2) = lookupM id l2 := by
  induction l with
  | nil => simp
  | cons p rest ih =>
    rw [lookupM] at h
    rw [List.cons_append, lookupM]
    by_cases hk : p.1 = id
    · rw [if_pos hk] at h
      cases h
    · rw [if_neg hk] at h ⊢
      exact ih h

theorem lookupM_singleton {id k : Nat} {v : Media} :
    lookupM id [(k, v)] = if k = id then some v else none := by
  rw [lookupM]
  split <;> simp [lookupM]

theorem assocSet_of_absent {k : Nat} {v : Media} {l : List (Nat × Media)}
    (h : ∀ p ∈ l, p.1 ≠ k) : assocSet k v l = l ++ [(k, v)] := by
  induction l with
  | nil => rfl
  | cons p rest ih =>
    rw [assocSet, if_neg (h p (List.mem_cons_self p rest))]
    rw [ih fun q hq => h q (List.mem_cons_of_mem p hq)]
    simp

theorem mem_assocSet {k : Nat} {v : Media} {l : List (Nat × Media)} {p : Nat × Media}
    (h : p ∈ assocSet k v l) : p ∈ l ∨ p = (k, v) := by
  induction l with
  | nil =>
    right
    simpa [assocSet] using h
  | cons q rest ih =>
    obtain ⟨kq, vq⟩ := q
    rw [assocSet] at h
    by_cases hk : kq = k
    · rw [if_pos hk] at h
      rcases List.mem_cons.1 h with h | h
      · right
        rw [h, hk]
      · left
        exact List.mem_cons_of_mem _ h
    · rw [if_neg hk] at h
      rcases List.mem_cons.1 h with h | h
      · left
        rw [h]
        exact List.mem_cons_self _ _
      · rcases ih h with h | h
        · left; exact List.mem_cons_of_mem _ h
        · right; exact h

theorem lookupM_assocSet_self {k : Nat} {v : Media} {l : List (Nat × Media)} :
    lookupM k (assocSet k v l) = some v := by
  induction l with
  | nil => simp [assocSet, lookupM]
  | cons p rest ih =>
    rw [assocSet]
    by_cases hk : p.1 = k
    · rw [if_pos hk, lookupM, if_pos hk]
    · rw [if_neg hk, lookupM, if_neg hk]
      exact ih

theorem lookupM_assocSet_ne {k id : Nat} {v : Media} {l : List (Nat × Media)}
    (h : id ≠ k) : lookupM id (assocSet k v l) = lookupM id l := by
  induction l with
  | nil =>
    show lookupM id [(k, v)] = lookupM id []
    simp only [lookupM]
    rw [if_neg fun hh => h hh.symm]
  | cons p rest ih =>
    rw [assocSet]
    by_cases hk : p.1 = k
    · rw [if_pos hk, lookupM, lookupM]
      have : ¬ p.1 = id := by rw [hk]; exact fun hh => h hh.symm
      rw [if_neg this, if_neg this]
    · rw [if_neg hk, lookupM, lookupM]
      by_cases hid : p.1 = id
      · rw [if_pos hid, if_pos hid]
      · rw [if_neg hid, if_neg hid]
        exact ih

theorem findSome?_append_some {f : Nat × Media → Option β}
    {l l2 : List (Nat × Media)} {b : β} (h : l.findSome? f = some b) :
    (l ++ l2).findSome? f = some b := by
  induction l with
  | nil => simp [List.findSome?] at h
  | cons p rest ih =>
    rw [List.findSome?] at h
    rw [List.cons_append, List.findSome?]
    cases hf : f p with
    | some c => rw [hf] at h; exact h ▸ rfl
    | none => rw [hf] at h; exact ih h

theorem findSome?_append_none {f : Nat × Media → Option β}
    {l l2 : List (Nat × Media)} (h : l.findSome? f = none) :
    (l ++ l2).findSome? f = l2.findSome? f := by
  induction l with
  | nil => simp
  | cons p rest ih =>
    rw [List.findSome?] at h
    rw [List.cons_append, List.findSome?]
    cases hf : f p with
    | some c => rw [hf] at h; cases h
    | none => rw [hf] at h; exact ih h

theorem findSome?_assocSet_irrelevant {f : Nat × Media → Option β}
    {k : Nat} {v w : Media} {l : List (Nat × Media)}
    (hl : lookupM k l = some v) (hv : f (k, v) = none) (hw : f (k, w) = none) :
    (assocSet k w l).findSome? f = l.findSome? f := by
  induction l with
  | nil => simp [lookupM] at hl
  | cons p rest ih =>
    rw [assocSet]
    by_cases hk : p.1 = k
    · rw [lookupM, if_pos hk] at hl
      rw [if_pos hk, List.findSome?, List.findSome?]
      obtain ⟨k', v'⟩ := p
      obtain rfl : k' = k := hk
      obtain rfl : v' = v := by cases hl; rfl
      rw [hv, hw]
    · rw [lookupM, if_neg hk] at hl
      rw [if_neg hk, List.findSome?, List.findSome?]
      cases hf : f p with
      | some c => rfl
      | none => exact ih hl

/-! ### Evolution lemmas for the merge engine -/

theorem evolves_refl (a : Library) : Evolves a a :=
  ⟨fun _ _ h _ => h, fun _ _ h => Or.inl h, fun _ h => Or.inl h,
    fun _ _ h => h, fun _ _ _ h => h⟩

theorem evolves_trans {a b c : Library} (h1 : Evolves a b) (h2 : Evolves b c) :
    Evolves a c := by
  refine ⟨?_, ?_, ?_, ?_, ?_⟩
  · exact fun id v h hn => h2.frozen id v (h1.frozen id v h hn) hn
  · intro id u h
    rcases h1.uncatFate id u h with h' | ⟨m, h'⟩ | ⟨sid, seid, em, h'⟩
    · exact h2.uncatFate id u h'
    · exact Or.inr (Or.inl ⟨m, h2.frozen id _ h' (by intro u' hc; cases hc)⟩)
    · exact Or.inr (Or.inr ⟨sid, seid, em,
        h2.frozen id _ h' (by intro u' hc; cases hc)⟩)
  · intro id h
    rcases h1.newOnly id h with h' | ⟨s, h'⟩ | ⟨s, h'⟩
    · exact h2.newOnly id h'
    · exact Or.inr (Or.inl ⟨s, h2.frozen id _ h' (by intro u' hc; cases hc)⟩)
    · exact Or.inr (Or.inr ⟨s, h2.frozen id _ h' (by intro u' hc; cases hc)⟩)
  · exact fun t sid h => h2.findS t sid (h1.findS t sid h)
  · exact fun sid n k h => h2.findSe sid n k (h1.findSe sid n k h)

theorem evolves_replaceUncat {lib : Library} {id : Nat} {u : Uncategorised} {w : Media}
    (hu : lookupM id lib.media = some (.uncategorised u))
    (hw : (∃ m, w = .movie ⟨u.video, m⟩) ∨
      (∃ sid seid em, w = .episode ⟨u.video, sid, seid, em⟩)) :
    Evolves lib { lib with media := assocSet id w lib.media } := by
  refine ⟨?_, ?_, ?_, ?_, ?_⟩
  · intro id' v h hn
    by_cases he : id' = id
    · subst he
      rw [h] at hu
      cases hu
      exact absurd rfl (hn u)
    · show lookupM id' (assocSet id w lib.media) = some v
      rw [lookupM_assocSet_ne he]
      exact h
  · intro id' u' h
    by_cases he : id' = id
    · subst he
      rw [h] at hu
      injection hu with hu
      injection hu with hu
      subst hu
      rcases hw with ⟨m, rfl⟩ | ⟨sid, seid, em, rfl⟩
      · exact Or.inr (Or.inl ⟨m, lookupM_assocSet_self⟩)
      · exact Or.inr (Or.inr ⟨sid, seid, em, lookupM_assocSet_self⟩)
    · left
      show lookupM id' (assocSet id w lib.media) = some (.uncategorised u')
      rw [lookupM_assocSet_ne he]
      exact h
  · intro id' h
    by_cases he : id' = id
    · subst he
      rw [h] at hu
      cases hu
    · left
      show lookupM id' (assocSet id w lib.media) = none
      rw [lookupM_assocSet_ne he]
      exact h
  · intro t sid h
    show (assocSet id w lib.media).findSome? _ = some sid
    rw [findSome?_assocSet_irrelevant hu rfl ?_]
    · exact h
    · rcases hw with ⟨m, rfl⟩ | ⟨s1, s2, em, rfl⟩ <;> rfl
  · intro sid n k h
    show (assocSet id w lib.media).findSome? _ = some k
    rw [findSome?_assocSet_irrelevant hu rfl ?_]
    · exact h
    · rcases hw with ⟨m, rfl⟩ | ⟨s1, s2, em, rfl⟩ <;> rfl

theorem wf_replaceUncat {lib : Library} {id : Nat} {v w : Media}
    (hWF : lib.WF) (hu : lookupM id lib.media = some v) :
    Library.WF { lib with media := assocSet id w lib.media } := by
  intro p hp
  rcases mem_assocSet hp with h | h
  · exact hWF p h
  · subst h
    simpa using hWF (id, v) (lookupM_mem hu)

theorem insertM_media {lib : Library} {w : Media} (hWF : lib.WF) :
    (lib.insertM w).2.media = lib.media ++ [(lib.nextId, w)] := by
  show assocSet lib.nextId w lib.media = _
  exact assocSet_of_absent fun p hp => Nat.ne_of_lt (hWF p hp)

theorem wf_insertM {lib : Library} {w : Media} (hWF : lib.WF) :
    (lib.insertM w).2.WF := by
  intro p hp
  rcases mem_assocSet hp with h | h
  · exact Nat.lt_trans (hWF p h) (Nat.lt_succ_self _)
  · subst h
    exact Nat.lt_succ_self _

theorem evolves_insertM {lib : Library} {w : Media} (hWF : lib.WF)
    (hw : (∃ s, w = .series s) ∨ (∃ s, w = .season s)) :
    Evolves lib (lib.insertM w).2 := by
  have hm := @insertM_media lib w hWF
  refine ⟨?_, ?_, ?_, ?_, ?_⟩
  · intro id v h _
    show lookupM id (lib.insertM w).2.media = some v
    rw [hm]
    exact lookupM_append_left h
  · intro id u h
    left
    show lookupM id (lib.insertM w).2.media = some (.uncategorised u)
    rw [hm]
    exact lookupM_append_left h
  · intro id h
    have hsing : lookupM id (lib.insertM w).2.media = lookupM id [(lib.nextId, w)] := by
      rw [hm]
      exact lookupM_append_none h
    rw [lookupM_singleton] at hsing
    by_cases he : lib.nextId = id
    · rw [if_pos he] at hsing
      rcases hw with ⟨s, rfl⟩ | ⟨s, rfl⟩
      · exact Or.inr (Or.inl ⟨s, hsing⟩)
      · exact Or.inr (Or.inr ⟨s, hsing⟩)
    · rw [if_neg he] at hsing
      exact Or.inl hsing
  · intro t sid h
    show ((lib.insertM w).2.media).findSome? _ = some sid
    rw [hm]
    exact findSome?_append_some h
  · intro sid n k h
    show ((lib.insertM w).2.media).findSome? _ = some k
    rw [hm]
    exact findSome?_append_some h

/-- `promoteMovie` evolves the store and preserves well-formedness. -/
theorem evolves_promoteMovie (id : Nat) (m : MovieMetadata) (lib : Library) :
    Evolves lib (promoteMovie id m lib) ∧ (lib.WF → (promoteMovie id m lib).WF) := by
  cases h : lookupM id lib.media with
  | none =>
    rw [promoteMovie, h]
    exact ⟨evolves_refl lib, fun h => h⟩
  | some v =>
    cases v with
    | uncategorised u =>
      rw [promoteMovie, h]
      exact ⟨evolves_replaceUncat h (Or.inl ⟨m, rfl⟩),
        fun hWF => wf_replaceUncat hWF h⟩
    | movie x => rw [promoteMovie, h]; exact ⟨evolves_refl lib, fun h => h⟩
    | series x => rw [promoteMovie, h]; exact ⟨evolves_refl lib, fun h => h⟩
    | season x => rw [promoteMovie, h]; exact ⟨evolves_refl lib, fun h => h⟩
    | episode x => rw [promoteMovie, h]; exact ⟨evolves_refl lib, fun h => h⟩

/-- `promoteEpisode` evolves the store and preserves well-formedness. -/
theorem evolves_promoteEpisode (sid seid id : Nat) (m : EpisodeMetadata) (lib : Library) :
    Evolves lib (promoteEpisode sid seid id m lib) ∧
      (lib.WF → (promoteEpisode sid seid id m lib).WF) := by
  cases h : lookupM id lib.media with
  | none =>
    rw [promoteEpisode, h]
    exact ⟨evolves_refl lib, fun h => h⟩
  | some v =>
    cases v with
    | uncategorised u =>
      rw [promoteEpisode, h]
      exact ⟨evolves_replaceUncat h (Or.inr ⟨sid, seid, m, rfl⟩),
        fun hWF => wf_replaceUncat hWF h⟩
    | movie x => rw [promoteEpisode, h]; exact ⟨evolves_refl lib, fun h => h⟩
    | series x => rw [promoteEpisode, h]; exact ⟨evolves_refl lib, fun h => h⟩
    | season x => rw [promoteEpisode, h]; exact ⟨evolves_refl lib, fun h => h⟩
    | episode x => rw [promoteEpisode, h]; exact ⟨evolves_refl lib, fun h => h⟩

/-- The movie loop evolves the store and preserves well-formedness. -/
theorem evolves_insertMovies (ms : List (Nat × MovieMetadata)) (lib : Library) :
    Evolves lib (insertMovies ms lib) ∧ (lib.WF → (insertMovies ms lib).WF) := by
  induction ms generalizing lib with
  | nil => exact ⟨evolves_refl lib, fun h => h⟩
  | cons q rest ih =>
    obtain ⟨id, m⟩ := q
    rw [insertMovies]
    obtain ⟨e1, w1⟩ := evolves_promoteMovie id m lib
    obtain ⟨e2, w2⟩ := ih (promoteMovie id m lib)
    exact ⟨evolves_trans e1 e2, fun h => w2 (w1 h)⟩

/-- The episode loop evolves the store and preserves well-formedness. -/
theorem evolves_insertEpisodes (sid seid : Nat) (eps : List (Nat × EpisodeMetadata))
    (lib : Library) :
    Evolves lib (insertEpisodes sid seid eps lib) ∧
      (lib.WF → (insertEpisodes sid seid eps lib).WF) := by
  induction eps generalizing lib with
  | nil => exact ⟨evolves_refl lib, fun h => h⟩
  | cons q rest ih =>
    obtain ⟨id, m⟩ := q
    rw [insertEpisodes]
    obtain ⟨e1, w1⟩ := evolves_promoteEpisode sid seid id m lib
    obtain ⟨e2, w2⟩ := ih (promoteEpisode sid seid id m lib)
    exact ⟨evolves_trans e1 e2, fun h => w2 (w1 h)⟩

/-- The season loop body evolves the store and preserves well-formedness
(well-formedness is needed because a fresh season may be inserted). -/
theorem evolves_insertSeason (sid : Nat) (ssr : SeasonScrapeResult) (lib : Library)
    (hWF : lib.WF) :
    Evolves lib (insertSeason sid ssr lib) ∧ (insertSeason sid ssr lib).WF := by
  rw [insertSeason]
  cases h : findSeason lib sid ssr.metadata.season with
  | some seid =>
    obtain ⟨e, w⟩ := evolves_insertEpisodes sid seid ssr.episodes lib
    exact ⟨e, w hWF⟩
  | none =>
    have e1 := @evolves_insertM lib (.season ⟨ssr.metadata, sid⟩) hWF (Or.inr ⟨_, rfl⟩)
    have w1 := @wf_insertM lib (.season ⟨ssr.metadata, sid⟩) hWF
    obtain ⟨e2, w2⟩ := evolves_insertEpisodes sid lib.nextId ssr.episodes
      (lib.insertM (.season ⟨ssr.metadata, sid⟩)).2
    exact ⟨evolves_trans e1 e2, w2 w1⟩

/-- The season loop evolves the store and preserves well-formedness. -/
theorem evolves_insertSeasons (sid : Nat) (ssrs : List SeasonScrapeResult) (lib : Library)
    (hWF : lib.WF) :
    Evolves lib (insertSeasons sid ssrs lib) ∧ (insertSeasons sid ssrs lib).WF := by
  induction ssrs generalizing lib with
  | nil => exact ⟨evolves_refl lib, hWF⟩
  | cons ssr rest ih =>
    rw [insertSeasons]
    obtain ⟨e1, w1⟩ := evolves_insertSeason sid ssr lib hWF
    obtain ⟨e2, w2⟩ := ih (insertSeason sid ssr lib) w1
    exact ⟨evolves_trans e1 e2, w2⟩

/-- The series loop body evolves the store and preserves well-formedness. -/
theorem evolves_insertSeries (sr : SeriesScrapeResult) (lib : Library) (hWF : lib.WF) :
    Evolves lib (insertSeries sr lib) ∧ (insertSeries sr lib).WF := by
  rw [insertSeries]
  cases h : findSeries lib sr.metadata.tmdbId with
  | some sid => exact evolves_insertSeasons sid sr.seasons lib hWF
  | none =>
    have e1 := @evolves_insertM lib (.series ⟨sr.metadata⟩) hWF (Or.inl ⟨_, rfl⟩)
    have w1 := @wf_insertM lib (.series ⟨sr.metadata⟩) hWF
    obtain ⟨e2, w2⟩ := evolves_insertSeasons lib.nextId sr.seasons
      (lib.insertM (.series ⟨sr.metadata⟩)).2 w1
    exact ⟨evolves_trans e1 e2, w2⟩

/-- The series loop evolves the store and preserves well-formedness. -/
theorem evolves_insertSeriesList (srs : List SeriesScrapeResult) (lib : Library)
    (hWF : lib.WF) :
    Evolves lib (insertSeriesList srs lib) ∧ (insertSeriesList srs lib).WF := by
  induction srs generalizing lib with
  | nil => exact ⟨evolves_refl lib, hWF⟩
  | cons sr rest ih =>
    rw [insertSeriesList]
    obtain ⟨e1, w1⟩ := evolves_insertSeries sr lib hWF
    obtain ⟨e2, w2⟩ := ih (insertSeries sr lib) w1
    exact ⟨evolves_trans e1 e2, w2⟩

/-- `ScrapeResult::insert` evolves the store and preserves well-formedness. -/
theorem evolves_insert (r : ScrapeResult) (lib : Library) (hWF : lib.WF) :
    Evolves lib (r.insert lib) ∧ (r.insert lib).WF := by
  rw [ScrapeResult.insert]
  obtain ⟨e1, w1⟩ := evolves_insertMovies r.movies lib
  obtain ⟨e2, w2⟩ := evolves_insertSeriesList r.series (insertMovies r.movies lib) (w1 hWF)
  exact ⟨evolves_trans e1 e2, w2⟩

theorem notUncatAt_evolves {a b : Library} (e : Evolves a b) {id : Nat}
    (h : notUncatAt a id) : notUncatAt b id := by
  intro u hb
  cases ha : lookupM id a.media with
  | none =>
    rcases e.newOnly id ha with h' | ⟨s, h'⟩ | ⟨s, h'⟩ <;> rw [h'] at hb <;> simp at hb
  | some v =>
    cases v with
    | uncategorised u' => exact h u' ha
    | movie x =>
      rw [e.frozen id _ ha (by intro u' hc; cases hc)] at hb
      simp at hb
    | series x =>
      rw [e.frozen id _ ha (by intro u' hc; cases hc)] at hb
      simp at hb
    | season x =>
      rw [e.frozen id _ ha (by intro u' hc; cases hc)] at hb
      simp at hb
    | episode x =>
      rw [e.frozen id _ ha (by intro u' hc; cases hc)] at hb
      simp at hb

theorem satSeason_evolves {a b : Library} (e : Evolves a b) {sid : Nat}
    {ssr : SeasonScrapeResult} (h : SatSeason a sid ssr) : SatSeason b sid ssr := by
  obtain ⟨seid, hf, hep⟩ := h
  exact ⟨seid, e.findSe _ _ _ hf, fun q hq => notUncatAt_evolves e (hep q hq)⟩

theorem satSeries_evolves {a b : Library} (e : Evolves a b)
    {sr : SeriesScrapeResult} (h : SatSeries a sr) : SatSeries b sr := by
  obtain ⟨sid, hf, hs⟩ := h
  exact ⟨sid, e.findS _ _ hf, fun ssr hssr => satSeason_evolves e (hs ssr hssr)⟩

theorem promoteMovie_notUncat (id : Nat) (m : MovieMetadata) (lib : Library) :
    notUncatAt (promoteMovie id m lib) id := by
  intro u
  cases h : lookupM id lib.media with
  | none => rw [promoteMovie, h]; rw [h]; simp
  | some v =>
    cases v with
    | uncategorised u' =>
      rw [promoteMovie, h]
      show lookupM id (assocSet id _ lib.media) ≠ _
      rw [lookupM_assocSet_self]
      simp
    | movie x => rw [promoteMovie, h]; rw [h]; simp
    | series x => rw [promoteMovie, h]; rw [h]; simp
    | season x => rw [promoteMovie, h]; rw [h]; simp
    | episode x => rw [promoteMovie, h]; rw [h]; simp

theorem promoteEpisode_notUncat (sid seid id : Nat) (m : EpisodeMetadata) (lib : Library) :
    notUncatAt (promoteEpisode sid seid id m lib) id := by
  intro u
  cases h : lookupM id lib.media with
  | none => rw [promoteEpisode, h]; rw [h]; simp
  | some v =>
    cases v with
    | uncategorised u' =>
      rw [promoteEpisode, h]
      show lookupM id (assocSet id _ lib.media) ≠ _
      rw [lookupM_assocSet_self]
      simp
    | movie x => rw [promoteEpisode, h]; rw [h]; simp
    | series x => rw [promoteEpisode, h]; rw [h]; simp
    | season x => rw [promoteEpisode, h]; rw [h]; simp
    | episode x => rw [promoteEpisode, h]; rw [h]; simp

theorem insertMovies_notUncat (ms : List (Nat × MovieMetadata)) (lib : Library) :
    ∀ q ∈ ms, notUncatAt (insertMovies ms lib) q.1 := by
  induction ms generalizing lib with
  | nil => intro q hq; cases hq
  | cons p rest ih =>
    obtain ⟨id, m⟩ := p
    intro q hq
    rw [insertMovies]
    rcases List.mem_cons.1 hq with h | h
    · subst h
      exact notUncatAt_evolves (evolves_insertMovies rest (promoteMovie id m lib)).1
        (promoteMovie_notUncat id m lib)
    · exact ih (promoteMovie id m lib) q h

theorem insertEpisodes_notUncat (sid seid : Nat) (eps : List (Nat × EpisodeMetadata))
    (lib : Library) : ∀ q ∈ eps, notUncatAt (insertEpisodes sid seid eps lib) q.1 := by
  induction eps generalizing lib with
  | nil => intro q hq; cases hq
  | cons p rest ih =>
    obtain ⟨id, m⟩ := p
    intro q hq
    rw [insertEpisodes]
    rcases List.mem_cons.1 hq with h | h
    · subst h
      exact notUncatAt_evolves
        (evolves_insertEpisodes sid seid rest (promoteEpisode sid seid id m lib)).1
        (promoteEpisode_notUncat sid seid id m lib)
    · exact ih (promoteEpisode sid seid id m lib) q h

theorem findSeason_insertM_self {lib : Library} {sid : Nat} {meta : SeasonMetadata}
    (hWF : lib.WF) (h : findSeason lib sid meta.season = none) :
    findSeason (lib.insertM (.season ⟨meta, sid⟩)).2 sid meta.season = some lib.nextId := by
  show ((lib.insertM _).2.media).findSome? _ = _
  rw [insertM_media hWF]
  rw [findSome?_append_none h]
  simp [List.findSome?]

theorem findSeries_insertM_self {lib : Library} {meta : SeriesMetadata}
    (hWF : lib.WF) (h : findSeries lib meta.tmdbId = none) :
    findSeries (lib.insertM (.series ⟨meta⟩)).2 meta.tmdbId = some lib.nextId := by
  show ((lib.insertM _).2.media).findSome? _ = _
  rw [insertM_media hWF]
  rw [findSome?_append_none h]
  simp [List.findSome?]

theorem insertSeason_sat (sid : Nat) (ssr : SeasonScrapeResult) (lib : Library)
    (hWF : lib.WF) : SatSeason (insertSeason sid ssr lib) sid ssr := by
  rw [insertSeason]
  cases h : findSeason lib sid ssr.metadata.season with
  | some seid =>
    exact ⟨seid, (evolves_insertEpisodes sid seid ssr.episodes lib).1.findSe _ _ _ h,
      insertEpisodes_notUncat sid seid ssr.episodes lib⟩
  | none =>
    refine ⟨lib.nextId, ?_, insertEpisodes_notUncat _ _ _ _⟩
    exact (evolves_insertEpisodes sid lib.nextId ssr.episodes _).1.findSe _ _ _
      (findSeason_insertM_self hWF h)

theorem insertSeasons_sat (sid : Nat) (ssrs : List SeasonScrapeResult) (lib : Library)
    (hWF : lib.WF) : ∀ ssr ∈ ssrs, SatSeason (insertSeasons sid ssrs lib) sid ssr := by
  induction ssrs generalizing lib with
  | nil => intro ssr h; cases h
  | cons ssr0 rest ih =>
    intro ssr hm
    rw [insertSeasons]
    rcases List.mem_cons.1 hm with h | h
    · subst h
      have hw := (evolves_insertSeason sid ssr lib hWF).2
      exact satSeason_evolves (evolves_insertSeasons sid rest _ hw).1
        (insertSeason_sat sid ssr lib hWF)
    · exact ih (insertSeason sid ssr0 lib) (evolves_insertSeason sid ssr0 lib hWF).2 ssr h

theorem insertSeries_sat (sr : SeriesScrapeResult) (lib : Library) (hWF : lib.WF) :
    SatSeries (insertSeries sr lib) sr := by
  rw [insertSeries]
  cases h : findSeries lib sr.metadata.tmdbId with
  | some sid =>
    exact ⟨sid, (evolves_insertSeasons sid sr.seasons lib hWF).1.findS _ _ h,
      insertSeasons_sat sid sr.seasons lib hWF⟩
  | none =>
    have hw := @wf_insertM lib (.series ⟨sr.metadata⟩) hWF
    refine ⟨lib.nextId, ?_, insertSeasons_sat _ _ _ hw⟩
    exact (evolves_insertSeasons lib.nextId sr.seasons _ hw).1.findS _ _
      (findSeries_insertM_self hWF h)

theorem insertSeriesList_sat (srs : List SeriesScrapeResult) (lib : Library)
    (hWF : lib.WF) : ∀ sr ∈ srs, SatSeries (insertSeriesList srs lib) sr := by
  induction srs generalizing lib with
  | nil => intro sr h; cases h
  | cons sr0 rest ih =>
    intro sr hm
    rw [insertSeriesList]
    rcases List.mem_cons.1 hm with h | h
    · subst h
      have hw := (evolves_insertSeries sr lib hWF).2
      exact satSeries_evolves (evolves_insertSeriesList rest _ hw).1
        (insertSeries_sat sr lib hWF)
    · exact ih (insertSeries sr0 lib) (evolves_insertSeries sr0 lib hWF).2 sr h

/-- After one merge pass everything in the result is resolved. -/
theorem insert_sat (r : ScrapeResult) (lib : Library) (hWF : lib.WF) :
    Sat (r.insert lib) r := by
  constructor
  · intro q hq
    rw [ScrapeResult.insert]
    have hw := (evolves_insertMovies r.movies lib).2 hWF
    exact notUncatAt_evolves (evolves_insertSeriesList r.series _ hw).1
      (insertMovies_notUncat r.movies lib q hq)
  · intro sr hsr
    rw [ScrapeResult.insert]
    exact insertSeriesList_sat r.series (insertMovies r.movies lib)
      ((evolves_insertMovies r.movies lib).2 hWF) sr hsr

theorem promoteMovie_id_of_notUncat {lib : Library} {id : Nat} {m : MovieMetadata}
    (h : notUncatAt lib id) : promoteMovie id m lib = lib := by
  cases hv : lookupM id lib.media with
  | none => rw [promoteMovie, hv]
  | some v =>
    cases v with
    | uncategorised u => exact absurd hv (h u)
    | movie x => rw [promoteMovie, hv]
    | series x => rw [promoteMovie, hv]
    | season x => rw [promoteMovie, hv]
    | episode x => rw [promoteMovie, hv]

theorem promoteEpisode_id_of_notUncat {lib : Library} {sid seid id : Nat}
    {m : EpisodeMetadata} (h : notUncatAt lib id) :
    promoteEpisode sid seid id m lib = lib := by
  cases hv : lookupM id lib.media with
  | none => rw [promoteEpisode, hv]
  | some v =>
    cases v with
    | uncategorised u => exact absurd hv (h u)
    | movie x => rw [promoteEpisode, hv]
    | series x => rw [promoteEpisode, hv]
    | season x => rw [promoteEpisode, hv]
    | episode x => rw [promoteEpisode, hv]

theorem insertMovies_id_of_sat {ms : List (Nat × MovieMetadata)} {lib : Library}
    (h : ∀ q ∈ ms, notUncatAt lib q.1) : insertMovies ms lib = lib := by
  induction ms with
  | nil => rfl
  | cons p rest ih =>
    obtain ⟨id, m⟩ := p
    rw [insertMovies, promoteMovie_id_of_notUncat (h (id, m) (List.mem_cons_self _ _))]
    exact ih fun q hq => h q (List.mem_cons_of_mem _ hq)

theorem insertEpisodes_id_of_sat {sid seid : Nat} {eps : List (Nat × EpisodeMetadata)}
    {lib : Library} (h : ∀ q ∈ eps, notUncatAt lib q.1) :
    insertEpisodes sid seid eps lib = lib := by
  induction eps with
  | nil => rfl
  | cons p rest ih =>
    obtain ⟨id, m⟩ := p
    rw [insertEpisodes, promoteEpisode_id_of_notUncat (h (id, m) (List.mem_cons_self _ _))]
    exact ih fun q hq => h q (List.mem_cons_of_mem _ hq)

theorem insertSeason_id_of_sat {sid : Nat} {ssr : SeasonScrapeResult} {lib : Library}
    (h : SatSeason lib sid ssr) : insertSeason sid ssr lib = lib := by
  obtain ⟨seid, hf, heps⟩ := h
  rw [insertSeason, hf]
  exact insertEpisodes_id_of_sat heps

theorem insertSeasons_id_of_sat {sid : Nat} {ssrs : List SeasonScrapeResult} {lib : Library}
    (h : ∀ ssr ∈ ssrs, SatSeason lib sid ssr) : insertSeasons sid ssrs lib = lib := by
  induction ssrs with
  | nil => rfl
  | cons ssr rest ih =>
    rw [insertSeasons, insertSeason_id_of_sat (h ssr (List.mem_cons_self _ _))]
    exact ih fun s hs => h s (List.mem_cons_of_mem _ hs)

theorem insertSeries_id_of_sat {sr : SeriesScrapeResult} {lib : Library}
    (h : SatSeries lib sr) : insertSeries sr lib = lib := by
  obtain ⟨sid, hf, hs⟩ := h
  rw [insertSeries, hf]
  exact insertSeasons_id_of_sat hs

theorem insertSeriesList_id_of_sat {srs : List SeriesScrapeResult} {lib : Library}
    (h : ∀ sr ∈ srs, SatSeries lib sr) : insertSeriesList srs lib = lib := by
  induction srs with
  | nil => rfl
  | cons sr rest ih =>
    rw [insertSeriesList, insertSeries_id_of_sat (h sr (List.mem_cons_self _ _))]
    exact ih fun s hs => h s (List.mem_cons_of_mem _ hs)

/-- A merge pass over an already-resolved result is the identity. -/
theorem insert_id_of_sat {r : ScrapeResult} {lib : Library} (h : Sat lib r) :
    r.insert lib = lib := by
  rw [ScrapeResult.insert, insertMovies_id_of_sat h.1]
  exact insertSeriesList_id_of_sat h.2

/-- C1: for every well-formed library and every `ScrapeResult`, re-applying
the same result is the identity on the store: the second application
creates nothing, so there are no more `Series` entities per external tmdb
id and no more `Season` entities per `(series id, season number)` pair
after two applications than after one. -/
theorem scrapeInsert_idempotent_no_dup (lib : Library) (r : ScrapeResult)
    (t sid n : Nat) (hWF : lib.WF) :
    r.insert (r.insert lib) = r.insert lib ∧
    (r.insert (r.insert lib)).seriesCount t = (r.insert lib).seriesCount t ∧
    (r.insert (r.insert lib)).seasonCount sid n = (r.insert lib).seasonCount sid n := by
  have heq : r.insert (r.insert lib) = r.insert lib :=
    insert_id_of_sat (insert_sat r lib hWF)
  exact ⟨heq, by rw [heq], by rw [heq]⟩

/-- Witness for C1 at a concrete library and scrape result. -/
theorem scrapeInsert_idempotent_no_dup_witness :
    libTwoUncat.WF ∧
    (scrapeResFx.insert (scrapeResFx.insert libTwoUncat) = scrapeResFx.insert libTwoUncat ∧
      (scrapeResFx.insert (scrapeResFx.insert libTwoUncat)).seriesCount 42 =
        (scrapeResFx.insert libTwoUncat).seriesCount 42 ∧
      (scrapeResFx.insert (scrapeResFx.insert libTwoUncat)).seasonCount 3 1 =
        (scrapeResFx.insert libTwoUncat).seasonCount 3 1) :=
  ⟨by decide, scrapeInsert_idempotent_no_dup libTwoUncat scrapeResFx 42 3 1 (by decide)⟩

/-! ### Per-id tracking through the merge pass (for C2) -/

theorem promoteMovie_untouched {lib : Library} {id' id : Nat} {m : MovieMetadata}
    (h : id ≠ id') :
    lookupM id (promoteMovie id' m lib).media = lookupM id lib.media := by
  cases hv : lookupM id' lib.media with
  | none => rw [promoteMovie, hv]
  | some v =>
    cases v with
    | uncategorised u =>
      rw [promoteMovie, hv]
      exact lookupM_assocSet_ne h
    | movie x => rw [promoteMovie, hv]
    | series x => rw [promoteMovie, hv]
    | season x => rw [promoteMovie, hv]
    | episode x => rw [promoteMovie, hv]

theorem promoteEpisode_untouched {lib : Library} {sid seid id' id : Nat}
    {m : EpisodeMetadata} (h : id ≠ id') :
    lookupM id (promoteEpisode sid seid id' m lib).media = lookupM id lib.media := by
  cases hv : lookupM id' lib.media with
  | none => rw [promoteEpisode, hv]
  | some v =>
    cases v with
    | uncategorised u =>
      rw [promoteEpisode, hv]
      exact lookupM_assocSet_ne h
    | movie x => rw [promoteEpisode, hv]
    | series x => rw [promoteEpisode, hv]
    | season x => rw [promoteEpisode, hv]
    | episode x => rw [promoteEpisode, hv]

theorem insertMovies_keepsLookup {ms : List (Nat × MovieMetadata)} {lib : Library}
    {id : Nat} (h : id ∉ ms.map Prod.fst) :
    lookupM id (insertMovies ms lib).media = lookupM id lib.media := by
  induction ms generalizing lib with
  | nil => rfl
  | cons p rest ih =>
    obtain ⟨id0, m0⟩ := p
    rw [insertMovies]
    have h0 : id ≠ id0 := by
      intro he
      exact h (by rw [he]; exact List.mem_cons_self _ _)
    rw [ih (fun hc => h (List.mem_cons_of_mem _ hc))]
    exact promoteMovie_untouched h0

theorem insertEpisodes_keepsLookup {sid seid : Nat} {eps : List (Nat × EpisodeMetadata)}
    {lib : Library} {id : Nat} (h : id ∉ eps.map Prod.fst) :
    lookupM id (insertEpisodes sid seid eps lib).media = lookupM id lib.media := by
  induction eps generalizing lib with
  | nil => rfl
  | cons p rest ih =>
    obtain ⟨id0, m0⟩ := p
    rw [insertEpisodes]
    have h0 : id ≠ id0 := by
      intro he
      exact h (by rw [he]; exact List.mem_cons_self _ _)
    rw [ih (fun hc => h (List.mem_cons_of_mem _ hc))]
    exact promoteEpisode_untouched h0

theorem insertMovies_promotes {ms : List (Nat × MovieMetadata)} {lib : Library}
    {id : Nat} {m : MovieMetadata} {u : Uncategorised}
    (hnd : (ms.map Prod.fst).Nodup) (hm : (id, m) ∈ ms)
    (hu : lookupM id lib.media = some (.uncategorised u)) :
    lookupM id (insertMovies ms lib).media = some (.movie ⟨u.video, m⟩) := by
  induction ms generalizing lib with
  | nil => cases hm
  | cons p rest ih =>
    obtain ⟨id0, m0⟩ := p
    rw [List.map_cons, List.nodup_cons] at hnd
    rw [insertMovies]
    rcases List.mem_cons.1 hm with h | h
    · injection h with h1 h2
      subst h1
      subst h2
      rw [insertMovies_keepsLookup hnd.1]
      rw [promoteMovie, hu]
      exact lookupM_assocSet_self
    · have hne : id ≠ id0 := by
        intro he
        subst he
        have h2 := List.mem_map_of_mem Prod.fst h
        exact hnd.1 h2
      refine ih hnd.2 h ?_
      rw [promoteMovie_untouched hne]
      exact hu

theorem insertEpisodes_promotes {sid seid : Nat} {eps : List (Nat × EpisodeMetadata)}
    {lib : Library} {id : Nat} {em : EpisodeMetadata} {u : Uncategorised}
    (hnd : (eps.map Prod.fst).Nodup) (hm : (id, em) ∈ eps)
    (hu : lookupM id lib.media = some (.uncategorised u)) :
    lookupM id (insertEpisodes sid seid eps lib).media =
      some (.episode ⟨u.video, sid, seid, em⟩) := by
  induction eps generalizing lib with
  | nil => cases hm
  | cons p rest ih =>
    obtain ⟨id0, m0⟩ := p
    rw [List.map_cons, List.nodup_cons] at hnd
    rw [insertEpisodes]
    rcases List.mem_cons.1 hm with h | h
    · injection h with h1 h2
      subst h1
      subst h2
      rw [insertEpisodes_keepsLookup hnd.1]
      rw [promoteEpisode, hu]
      exact lookupM_assocSet_self
    · have hne : id ≠ id0 := by
        intro he
        subst he
        have h2 := List.mem_map_of_mem Prod.fst h
        exact hnd.1 h2
      refine ih hnd.2 h ?_
      rw [promoteEpisode_untouched hne]
      exact hu

theorem lookupM_insertM_keeps {lib : Library} {w : Media} {id : Nat} {v : Media}
    (hWF : lib.WF) (hv : lookupM id lib.media = some v) :
    lookupM id (lib.insertM w).2.media = some v := by
  rw [insertM_media hWF]
  exact lookupM_append_left hv

theorem insertSeason_keepsLookup {sid : Nat} {ssr : SeasonScrapeResult} {lib : Library}
    {id : Nat} {v : Media} (hWF : lib.WF) (hid : id ∉ epIdsOfSeason ssr)
    (hv : lookupM id lib.media = some v) :
    lookupM id (insertSeason sid ssr lib).media = some v := by
  rw [insertSeason]
  cases h : findSeason lib sid ssr.metadata.season with
  | some seid =>
    rw [insertEpisodes_keepsLookup hid]
    exact hv
  | none =>
    rw [insertEpisodes_keepsLookup hid]
    exact lookupM_insertM_keeps hWF hv

theorem insertSeasons_keepsLookup {sid : Nat} {ssrs : List SeasonScrapeResult}
    {lib : Library} {id : Nat} {v : Media} (hWF : lib.WF)
    (hid : id ∉ ssrs.flatMap epIdsOfSeason) (hv : lookupM id lib.media = some v) :
    lookupM id (insertSeasons sid ssrs lib).media = some v := by
  induction ssrs generalizing lib with
  | nil => exact hv
  | cons ssr rest ih =>
    rw [List.flatMap_cons] at hid
    rw [insertSeasons]
    exact ih (evolves_insertSeason sid ssr lib hWF).2
      (fun hc => hid (List.mem_append_right _ hc))
      (insertSeason_keepsLookup hWF (fun hc => hid (List.mem_append_left _ hc)) hv)

theorem insertSeries_keepsLookup {sr : SeriesScrapeResult} {lib : Library}
    {id : Nat} {v : Media} (hWF : lib.WF) (hid : id ∉ epIdsOfSeries sr)
    (hv : lookupM id lib.media = some v) :
    lookupM id (insertSeries sr lib).media = some v := by
  rw [insertSeries]
  cases h : findSeries lib sr.metadata.tmdbId with
  | some sid => exact insertSeasons_keepsLookup hWF hid hv
  | none =>
    exact insertSeasons_keepsLookup (wf_insertM hWF) hid (lookupM_insertM_keeps hWF hv)

theorem insertSeason_promotes {sid : Nat} {ssr : SeasonScrapeResult} {lib : Library}
    {id : Nat} {em : EpisodeMetadata} {u : Uncategorised} (hWF : lib.WF)
    (hnd : (epIdsOfSeason ssr).Nodup) (hm : (id, em) ∈ ssr.episodes)
    (hu : lookupM id lib.media = some (.uncategorised u)) :
    ∃ seid, lookupM id (insertSeason sid ssr lib).media =
      some (.episode ⟨u.video, sid, seid, em⟩) := by
  rw [insertSeason]
  cases h : findSeason lib sid ssr.metadata.season with
  | some seid => exact ⟨seid, insertEpisodes_promotes hnd hm hu⟩
  | none =>
    exact ⟨lib.nextId, insertEpisodes_promotes hnd hm (lookupM_insertM_keeps hWF hu)⟩

theorem insertSeasons_promotes {sid : Nat} {ssrs : List SeasonScrapeResult}
    {lib : Library} {id : Nat} {em : EpisodeMetadata} {u : Uncategorised}
    {ssr : SeasonScrapeResult} (hWF : lib.WF)
    (hnd : (ssrs.flatMap epIdsOfSeason).Nodup) (hssr : ssr ∈ ssrs)
    (hm : (id, em) ∈ ssr.episodes)
    (hu : lookupM id lib.media = some (.uncategorised u)) :
    ∃ seid, lookupM id (insertSeasons sid ssrs lib).media =
      some (.episode ⟨u.video, sid, seid, em⟩) := by
  induction ssrs generalizing lib with
  | nil => cases hssr
  | cons ssr0 rest ih =>
    rw [List.flatMap_cons, List.nodup_append] at hnd
    rw [insertSeasons]
    have hW1 := (evolves_insertSeason sid ssr0 lib hWF).2
    rcases List.mem_cons.1 hssr with h | h
    · subst h
      obtain ⟨seid, hval⟩ := insertSeason_promotes hWF hnd.1 hm hu
      refine ⟨seid, ?_⟩
      have hrest : id ∉ rest.flatMap epIdsOfSeason := by
        intro hc
        exact hnd.2.2 (List.mem_map_of_mem Prod.fst hm) hc
      exact insertSeasons_keepsLookup hW1 hrest hval
    · have hid0 : id ∉ epIdsOfSeason ssr0 := by
        intro hc
        refine hnd.2.2 hc ?_
        exact List.mem_flatMap.2 ⟨ssr, h, List.mem_map_of_mem Prod.fst hm⟩
      exact ih hW1 hnd.2.1 h (insertSeason_keepsLookup hWF hid0 hu)

theorem insertSeriesList_promotes {srs : List SeriesScrapeResult} {lib : Library}
    {id : Nat} {em : EpisodeMetadata} {u : Uncategorised}
    {sr : SeriesScrapeResult} {ssr : SeasonScrapeResult} (hWF : lib.WF)
    (hnd : (srs.flatMap epIdsOfSeries).Nodup) (hsr : sr ∈ srs)
    (hssr : ssr ∈ sr.seasons) (hm : (id, em) ∈ ssr.episodes)
    (hu : lookupM id lib.media = some (.uncategorised u)) :
    ∃ sid seid, lookupM id (insertSeriesList srs lib).media =
      some (.episode ⟨u.video, sid, seid, em⟩) := by
  induction srs generalizing lib with
  | nil => cases hsr
  | cons sr0 rest ih =>
    rw [List.flatMap_cons, List.nodup_append] at hnd
    rw [insertSeriesList]
    have hW1 := (evolves_insertSeries sr0 lib hWF).2
    rcases List.mem_cons.1 hsr with h | h
    · subst h
      have hmemflat : id ∈ epIdsOfSeries sr :=
        List.mem_flatMap.2 ⟨ssr, hssr, List.mem_map_of_mem Prod.fst hm⟩
      have hrest : id ∉ rest.flatMap epIdsOfSeries := fun hc => hnd.2.2 hmemflat hc
      have hstep : ∃ sid seid, lookupM id (insertSeries sr lib).media =
          some (.episode ⟨u.video, sid, seid, em⟩) := by
        rw [insertSeries]
        cases hf : findSeries lib sr.metadata.tmdbId with
        | some sid =>
          obtain ⟨seid, hval⟩ := insertSeasons_promotes hWF hnd.1 hssr hm hu
          exact ⟨sid, seid, hval⟩
        | none =>
          obtain ⟨seid, hval⟩ := insertSeasons_promotes (wf_insertM hWF) hnd.1 hssr hm
            (lookupM_insertM_keeps hWF hu)
          exact ⟨lib.nextId, seid, hval⟩
      obtain ⟨sid, seid, hval⟩ := hstep
      refine ⟨sid, seid, ?_⟩
      exact (evolves_insertSeriesList rest _ hW1).1.frozen id _ hval
        (by intro u' hc; cases hc)
    · have hid0 : id ∉ epIdsOfSeries sr0 := by
        intro hc
        refine hnd.2.2 hc ?_
        exact List.mem_flatMap.2 ⟨sr, h,
          List.mem_flatMap.2 ⟨ssr, hssr, List.mem_map_of_mem Prod.fst hm⟩⟩
      exact ih hW1 hnd.2.1 h (insertSeries_keepsLookup hWF hid0 hu)

/-- C2: the merge pass promotes a still-`Uncategorised` entity in place
(same id) to `Movie`/`Episode` carrying over its `Video` unchanged; entities
that are absent or no longer `Uncategorised` are left unchanged, every
pre-existing id survives, and ids that were absent receive at most a new
`Series`/`Season` entity. -/
theorem scrapeInsert_promotes_in_place (lib : Library) (r : ScrapeResult)
    (id : Nat) (m : MovieMetadata) (em : EpisodeMetadata) (u : Uncategorised)
    (v : Media) (sr : SeriesScrapeResult) (ssr : SeasonScrapeResult)
    (hWF : lib.WF) (hnd : r.promotedIds.Nodup) :
    ((id, m) ∈ r.movies → lookupM id lib.media = some (.uncategorised u) →
      lookupM id (r.insert lib).media = some (.movie ⟨u.video, m⟩)) ∧
    (sr ∈ r.series → ssr ∈ sr.seasons → (id, em) ∈ ssr.episodes →
      lookupM id lib.media = some (.uncategorised u) →
      (lookupM id (r.insert lib).media).bind epPayload = some (u.video, em)) ∧
    (lookupM id lib.media = some v → v.isUncat = false →
      lookupM id (r.insert lib).media = some v) ∧
    ((lookupM id lib.media).isSome = true → (lookupM id (r.insert lib).media).isSome = true) ∧
    (lookupM id lib.media = none → newEntryOk (lookupM id (r.insert lib).media) = true) := by
  have hnd' : (r.movies.map Prod.fst ++ r.series.flatMap epIdsOfSeries).Nodup := hnd
  rw [List.nodup_append] at hnd'
  have e := (evolves_insert r lib hWF).1
  refine ⟨?_, ?_, ?_, ?_, ?_⟩
  · intro hm hu
    rw [ScrapeResult.insert]
    have hmv := insertMovies_promotes hnd'.1 hm hu
    have hW1 := (evolves_insertMovies r.movies lib).2 hWF
    exact (evolves_insertSeriesList r.series _ hW1).1.frozen id _ hmv
      (by intro u' hc; cases hc)
  · intro hsr hssr hm hu
    rw [ScrapeResult.insert]
    have hidflat : id ∈ r.series.flatMap epIdsOfSeries :=
      List.mem_flatMap.2 ⟨sr, hsr,
        List.mem_flatMap.2 ⟨ssr, hssr, List.mem_map_of_mem Prod.fst hm⟩⟩
    have hidm : id ∉ r.movies.map Prod.fst := fun hc => hnd'.2.2 hc hidflat
    have hu1 : lookupM id (insertMovies r.movies lib).media = some (.uncategorised u) := by
      rw [insertMovies_keepsLookup hidm]
      exact hu
    have hW1 := (evolves_insertMovies r.movies lib).2 hWF
    obtain ⟨sid, seid, hval⟩ :=
      insertSeriesList_promotes hW1 hnd'.2.1 hsr hssr hm hu1
    rw [hval]
    rfl
  · intro hv hnu
    refine e.frozen id v hv ?_
    intro u' hc
    subst hc
    cases hnu
  · intro hs
    rw [Option.isSome_iff_exists] at hs
    obtain ⟨v', hv'⟩ := hs
    cases v' with
    | uncategorised u' =>
      rcases e.uncatFate id u' hv' with h' | ⟨m', h'⟩ | ⟨s1, s2, em', h'⟩ <;>
        rw [h'] <;> rfl
    | movie x => rw [e.frozen id _ hv' (by intro u' hc; cases hc)]; rfl
    | series x => rw [e.frozen id _ hv' (by intro u' hc; cases hc)]; rfl
    | season x => rw [e.frozen id _ hv' (by intro u' hc; cases hc)]; rfl
    | episode x => rw [e.frozen id _ hv' (by intro u' hc; cases hc)]; rfl
  · intro hn
    rcases e.newOnly id hn with h' | ⟨s, h'⟩ | ⟨s, h'⟩ <;> rw [h'] <;> rfl

/-- Witness for C2: in the fixture, id 1 is promoted to the movie and id 2
to the episode, both keeping their original `Video`. -/
theorem scrapeInsert_promotes_in_place_witness :
    libTwoUncat.WF ∧ scrapeResFx.promotedIds.Nodup ∧
    lookupM 1 (scrapeResFx.insert libTwoUncat).media =
      some (.movie ⟨uncatF1.video, ⟨99, "M", 2000, none, none⟩⟩) ∧
    (lookupM 2 (scrapeResFx.insert libTwoUncat).media).bind epPayload =
      some (uncatF2.video, ⟨42, "E1", 1, 1, 0⟩) := by
  refine ⟨by decide, by decide, ?_, ?_⟩
  · exact (scrapeInsert_promotes_in_place libTwoUncat scrapeResFx 1
      ⟨99, "M", 2000, none, none⟩ ⟨42, "E1", 1, 1, 0⟩ uncatF1
      (.uncategorised uncatF1) ⟨⟨42, "Show", none, none⟩, []⟩
      ⟨⟨42, "S1", 1, none, none, none⟩, [], []⟩ (by decide) (by decide)).1
      (by decide) (by decide)
  · exact (scrapeInsert_promotes_in_place libTwoUncat scrapeResFx 2
      ⟨99, "M", 2000, none, none⟩ ⟨42, "E1", 1, 1, 0⟩ uncatF2
      (.uncategorised uncatF2) ⟨⟨42, "Show", none, none⟩,
        [⟨⟨42, "S1", 1, none, none, none⟩, [(2, ⟨42, "E1", 1, 1, 0⟩)], []⟩]⟩
      ⟨⟨42, "S1", 1, none, none, none⟩, [(2, ⟨42, "E1", 1, 1, 0⟩)], []⟩
      (by decide) (by decide)).2.1
      (by decide) (by decide) (by decide) (by decide)

/-! ### C3: watched aggregation of an empty season -/

/-- C3 (code bug): on a `Season` with no child episodes the fold yields
`(0, 0.0)`, the source divides `0.0 / 0` producing NaN, both epsilon tests
are false on NaN, and `calculate_watched` returns
`Partial { seconds: 0.0, percent: NaN }` — not `No` as the claim (and the
spec) state. -/
theorem calculateWatched_empty_season_nan :
    calculateWatched 1 libEmptySeason = some (.part (.val 0) .nan) ∧
    calculateWatched 1 libEmptySeason ≠ some .no ∧
    findEpisodes 1 libEmptySeason = [] := by
  refine ⟨by decide, by decide, by decide⟩

/-! ### C8: date_added on composite nodes -/

/-- C8 (code bug): for the season fixture, `date_added` returns the `added`
of the episode with maximal `last_watched` (time 3), not the maximal
`added` (time 5) that the claim, the spec, and the source's own unused
`season_date_added` describe; `last_watched` itself does return the maximal
`last_watched` (time 10). -/
theorem dateAdded_season_uses_lastWatched_episode :
    dateAdded 10 libSeasonAdded = some 3 ∧
    maxAddedOverSeason 10 libSeasonAdded = some 5 ∧
    (seasonDateAdded 10 libSeasonAdded).map (fun q => q.2.video.added) = some 5 ∧
    lastWatched 10 libSeasonAdded = some 10 := by
  refine ⟨by decide, by decide, by decide, by decide⟩

/-! ### C10: full_title totality under the back-reference invariant -/

/-- C10: under the back-reference invariant `full_title` never reaches the
`unwrap` (it is `some` for every id, and `"Unknown Media"` for absent ids);
without the invariant, an `Episode` whose `series` back-reference dangles
hits the `unwrap` and panics (modelled as `none`). -/
theorem fullTitle_safe (lib : Library) (id : Nat) (h : lib.BackRefsOk) :
    (fullTitle id lib).isSome = true ∧
    (lookupM id lib.media = none → fullTitle id lib = some "Unknown Media") ∧
    fullTitle 1 danglingLib = none := by
  refine ⟨?_, ?_, by decide⟩
  · cases hm : lookupM id lib.media with
    | none => simp [fullTitle, hm]
    | some v =>
      cases v with
      | uncategorised u => simp [fullTitle, hm]
      | movie x => simp [fullTitle, hm]
      | series x => simp [fullTitle, hm]
      | season s =>
        have hb := h _ (lookupM_mem hm)
        simp only at hb
        obtain ⟨sm, hsm⟩ := Option.isSome_iff_exists.1 hb
        simp [fullTitle, hm, hsm]
      | episode e =>
        have hb := h _ (lookupM_mem hm)
        simp only at hb
        obtain ⟨sm, hsm⟩ := Option.isSome_iff_exists.1 hb
        simp [fullTitle, hm, hsm]
  · intro hm
    simp [fullTitle, hm]

/-- Witness for C10 at a well-referenced library (id 99 is absent, so the
"Unknown Media" clause fires as well). -/
theorem fullTitle_safe_witness :
    wellRefLib.BackRefsOk ∧
    ((fullTitle 99 wellRefLib).isSome = true ∧
      (lookupM 99 wellRefLib.media = none → fullTitle 99 wellRefLib = some "Unknown Media") ∧
      fullTitle 1 danglingLib = none) :=
  ⟨by decide, fullTitle_safe wellRefLib 99 (by decide)⟩

/-! ### C9 and C6: Library::extend dedup behaviour -/

theorem extendOne_of_hit {lib : Library} {m : Media}
    (h : lib.media.any (fun p => p.2.videoPath == m.videoPath) = true) :
    lib.extendOne m = lib := by
  rw [Library.extendOne, if_pos h]

theorem extendOne_of_miss {lib : Library} {m : Media}
    (h : lib.media.any (fun p => p.2.videoPath == m.videoPath) = false) :
    lib.extendOne m = (lib.insertM m).2 := by
  rw [Library.extendOne, if_neg (by rw [h]; exact Bool.false_ne_true)]

theorem wf_extendOne {lib : Library} {m : Media} (hWF : lib.WF) :
    (lib.extendOne m).WF := by
  rw [Library.extendOne]
  split
  · exact hWF
  · exact wf_insertM hWF

theorem wf_extend {lib : Library} {ms : List Media} (hWF : lib.WF) :
    (lib.extend ms).WF := by
  induction ms generalizing lib with
  | nil => exact hWF
  | cons m rest ih => exact ih (wf_extendOne hWF)

theorem any_extendOne_mono {lib : Library} {m : Media}
    {f : Nat × Media → Bool} (hWF : lib.WF) (h : lib.media.any f = true) :
    (lib.extendOne m).media.any f = true := by
  rw [Library.extendOne]
  split
  · exact h
  · rw [insertM_media hWF, List.any_append, h]
    rfl

theorem any_extend_mono {lib : Library} {ms : List Media}
    {f : Nat × Media → Bool} (hWF : lib.WF) (h : lib.media.any f = true) :
    (lib.extend ms).media.any f = true := by
  induction ms generalizing lib with
  | nil => exact h
  | cons m rest ih => exact ih (wf_extendOne hWF) (any_extendOne_mono hWF h)

theorem extend_match_exists {lib : Library} {ms : List Media} {m : Media}
    (hWF : lib.WF) (hm : m ∈ ms) :
    (lib.extend ms).media.any (fun q => q.2.videoPath == m.videoPath) = true := by
  induction ms generalizing lib with
  | nil => cases hm
  | cons m0 rest ih =>
    rw [Library.extend]
    rcases List.mem_cons.1 hm with h | h
    · subst h
      cases hhit : lib.media.any (fun q => q.2.videoPath == m.videoPath) with
      | true =>
        exact any_extend_mono (wf_extendOne hWF) (by rw [extendOne_of_hit hhit]; exact hhit)
      | false =>
        refine any_extend_mono (wf_extendOne hWF) ?_
        rw [extendOne_of_miss hhit, insertM_media hWF, List.any_append]
        have : ((lib.nextId, m).2.videoPath == m.videoPath) = true := by
          simp
        simp [this]
    · exact ih (wf_extendOne hWF) h

theorem extend_of_all_hit {lib : Library} {ms : List Media}
    (h : ∀ m ∈ ms, lib.media.any (fun q => q.2.videoPath == m.videoPath) = true) :
    lib.extend ms = lib := by
  induction ms with
  | nil => rfl
  | cons m rest ih =>
    rw [Library.extend, extendOne_of_hit (h m (List.mem_cons_self _ _))]
    exact ih fun m' hm' => h m' (List.mem_cons_of_mem _ hm')

/-- `extend` run twice with the same entries is the identity the second
time. -/
theorem extend_idem {lib : Library} {ms : List Media} (hWF : lib.WF) :
    (lib.extend ms).extend ms = lib.extend ms :=
  extend_of_all_hit fun _ hm => extend_match_exists hWF hm

theorem pathCount_pos_iff_any {lib : Library} {p : String} :
    (lib.media.any (fun q => q.2.videoPath == some p) = true) ↔ lib.pathCount p ≠ 0 := by
  rw [Library.pathCount, List.any_eq_true]
  constructor
  · intro ⟨q, hq, hbeq⟩ hlen
    rw [List.length_eq_zero] at hlen
    have : q ∈ lib.media.filter (fun q => q.2.videoPath == some p) :=
      List.mem_filter.2 ⟨hq, hbeq⟩
    rw [hlen] at this
    cases this
  · intro hlen
    cases hf : lib.media.filter (fun q => q.2.videoPath == some p) with
    | nil => exact absurd (by rw [hf]; rfl) hlen
    | cons q rest =>
      have hq : q ∈ lib.media.filter (fun q => q.2.videoPath == some p) := by
        rw [hf]; exact List.mem_cons_self _ _
      exact ⟨q, (List.mem_filter.1 hq).1, (List.mem_filter.1 hq).2⟩

theorem pathCount_extendOne {lib : Library} {m : Media} {p : String} (hWF : lib.WF) :
    (lib.extendOne m).pathCount p =
      if lib.pathCount p = 0 ∧ m.videoPath = some p then 1 else lib.pathCount p := by
  cases hhit : lib.media.any (fun q => q.2.videoPath == m.videoPath) with
  | true =>
    rw [extendOne_of_hit hhit]
    by_cases hmp : m.videoPath = some p
    · rw [hmp] at hhit
      have := pathCount_pos_iff_any.1 hhit
      rw [if_neg fun hc => this hc.1]
    · rw [if_neg fun hc => hmp hc.2]
  | false =>
    rw [extendOne_of_miss hhit]
    have hpc : (lib.insertM m).2.pathCount p =
        lib.pathCount p + (if m.videoPath == some p then 1 else 0) := by
      show (List.filter _ (lib.insertM m).2.media).length = _
      rw [insertM_media hWF, List.filter_append, List.length_append]
      congr 1
      show (List.filter _ [(lib.nextId, m)]).length = _
      simp only [List.filter]
      split
      · simp_all
      · simp_all
    rw [hpc]
    by_cases hmp : m.videoPath = some p
    · have hc0 : lib.pathCount p = 0 := by
        by_contra hne
        have hany := pathCount_pos_iff_any.2 hne
        rw [← hmp] at hany
        rw [hany] at hhit
        cases hhit
      simp [hc0, hmp]
    · have hbeq : (m.videoPath == some p) = false := by
        simp [hmp]
      simp [hbeq, hmp]

theorem pathCount_extend {lib : Library} {ms : List Media} {p : String} (hWF : lib.WF) :
    (lib.extend ms).pathCount p =
      if lib.pathCount p = 0 ∧ p ∈ pathsOf ms then 1 else lib.pathCount p := by
  induction ms generalizing lib with
  | nil => simp [Library.extend, pathsOf]
  | cons m rest ih =>
    rw [Library.extend, ih (wf_extendOne hWF), pathCount_extendOne hWF]
    have hmem : (p ∈ pathsOf (m :: rest)) ↔ (m.videoPath = some p ∨ p ∈ pathsOf rest) := by
      cases hv : m.videoPath with
      | none => simp [pathsOf, List.filterMap_cons, hv]
      | some q => simp [pathsOf, List.filterMap_cons, hv, eq_comm]
    simp only [hmem]
    by_cases c1 : lib.pathCount p = 0 <;> by_cases c2 : m.videoPath = some p <;>
      by_cases c3 : p ∈ pathsOf rest <;> simp [c1, c2, c3]

theorem extendOne_keeps_lookup {lib : Library} {m : Media} {id : Nat} {v : Media}
    (hWF : lib.WF) (hv : lookupM id lib.media = some v) :
    lookupM id (lib.extendOne m).media = some v := by
  rw [Library.extendOne]
  split
  · exact hv
  · exact lookupM_insertM_keeps hWF hv

theorem extend_keeps_lookup {lib : Library} {ms : List Media} {id : Nat} {v : Media}
    (hWF : lib.WF) (hv : lookupM id lib.media = some v) :
    lookupM id (lib.extend ms).media = some v := by
  induction ms generalizing lib with
  | nil => exact hv
  | cons m rest ih => exact ih (wf_extendOne hWF) (extendOne_keeps_lookup hWF hv)

/-- C6: `extend` is idempotent, dedups by normalized video path (after an
extend there is exactly one entry for a path that was fresh and occurred in
the input, and the count is otherwise unchanged), and never changes an
existing entry. -/
theorem extend_idempotent_dedup (lib : Library) (ms : List Media) (p : String)
    (id : Nat) (v : Media) (hWF : lib.WF) :
    (lib.extend ms).extend ms = lib.extend ms ∧
    (lib.extend ms).pathCount p =
      (if lib.pathCount p = 0 ∧ p ∈ pathsOf ms then 1 else lib.pathCount p) ∧
    (lookupM id lib.media = some v → lookupM id (lib.extend ms).media = some v) := by
  exact ⟨extend_idem hWF, pathCount_extend hWF, fun hv => extend_keeps_lookup hWF hv⟩

/-- Witness for C6: extending an empty library with a duplicated entry
yields exactly one entry for its path, and re-extending changes nothing. -/
theorem extend_idempotent_dedup_witness :
    (Library.WF ⟨[], 1⟩) ∧
    ((Library.extend ⟨[], 1⟩ [.uncategorised uncatF1, .uncategorised uncatF1]).extend
        [.uncategorised uncatF1, .uncategorised uncatF1] =
      Library.extend ⟨[], 1⟩ [.uncategorised uncatF1, .uncategorised uncatF1] ∧
    (Library.extend ⟨[], 1⟩ [.uncategorised uncatF1, .uncategorised uncatF1]).pathCount
        "f1.mkv" =
      (if (Library.pathCount ⟨[], 1⟩ "f1.mkv") = 0 ∧
          "f1.mkv" ∈ pathsOf [.uncategorised uncatF1, .uncategorised uncatF1] then 1
        else Library.pathCount ⟨[], 1⟩ "f1.mkv") ∧
    (lookupM 7 (⟨[], 1⟩ : Library).media = some (.uncategorised uncatF1) →
      lookupM 7 (Library.extend ⟨[], 1⟩
          [.uncategorised uncatF1, .uncategorised uncatF1]).media =
        some (.uncategorised uncatF1))) :=
  ⟨by decide, extend_idempotent_dedup ⟨[], 1⟩
    [.uncategorised uncatF1, .uncategorised uncatF1] "f1.mkv" 7
    (.uncategorised uncatF1) (by decide)⟩

/-! ### C9: video-less entries collide on the `None` path key -/

theorem extendOne_drops_videoless {lib : Library} {m : Media}
    (hl : lib.hasVideoless) (hm : m.videoPath = none) : lib.extendOne m = lib := by
  refine extendOne_of_hit ?_
  rw [hm]
  exact hl

theorem hasVideoless_extendOne {lib : Library} {m : Media} (hWF : lib.WF)
    (h : lib.hasVideoless) : (lib.extendOne m).hasVideoless :=
  any_extendOne_mono hWF h

/-- C9: once the library stores any video-less entity, every further
video-less input entry is treated as a duplicate of it (`None == None`) and
dropped — extending is the same as extending with all video-less entries
filtered out. -/
theorem extend_drops_videoless (lib : Library) (ms : List Media)
    (hWF : lib.WF) (h : lib.hasVideoless) :
    lib.extend ms = lib.extend (ms.filter fun m => m.video.isSome) := by
  induction ms generalizing lib with
  | nil => rfl
  | cons m rest ih =>
    rw [Library.extend]
    cases hv : m.video with
    | none =>
      have hvp : m.videoPath = none := by
        rw [Media.videoPath, hv]
        rfl
      rw [extendOne_drops_videoless h hvp]
      rw [List.filter_cons_of_neg (by simp [hv])]
      exact ih _ hWF h
    | some vv =>
      rw [List.filter_cons_of_pos (by simp [hv]), Library.extend]
      exact ih _ (wf_extendOne hWF) (hasVideoless_extendOne hWF h)

/-! ### C5: error handling in scan_directories -/

theorem queueClean_append {a b : List (Except Unit (List FSEntry))} :
    queueClean (a ++ b) = (queueClean a && queueClean b) := by
  induction a with
  | nil => rfl
  | cons l rest ih =>
    rw [List.cons_append, queueClean, queueClean, ih, Bool.and_assoc]

/-- A clean scan (no failing `read_dir`, no failing `file_type` probe)
always returns `Ok`. -/
theorem scanGo_isOk (now : Int) (cur : List FSEntry)
    (queue : List (Except Unit (List FSEntry))) (out : List Media)
    (hc : entriesClean cur = true) (hq : queueClean queue = true) :
    (scanGo now cur queue out).isOk = true := by
  induction cur, queue, out using scanGo.induct now with
  | case1 out =>
    rw [scanGo]
    rfl
  | case2 e tail x =>
    rw [queueClean, listingClean] at hq
    cases hq
  | case3 entries queue out ih =>
    rw [queueClean, listingClean, Bool.and_eq_true] at hq
    rw [scanGo]
    exact ih hq.1 hq.2
  | case4 es queue out ih =>
    rw [entriesClean, entryClean, Bool.true_and] at hc
    rw [scanGo]
    exact ih hc hq
  | case5 a tail x x1 =>
    rw [entriesClean, entryClean, Bool.false_and] at hc
    cases hc
  | case6 a listing es queue out ih =>
    rw [entriesClean, Bool.and_eq_true] at hc
    obtain ⟨h1, h2⟩ := hc
    rw [scanGo]
    refine ih h2 ?_
    rw [queueClean_append, hq, Bool.true_and]
    cases listing with
    | error e =>
      rw [entryClean] at h1
      cases h1
    | ok es2 =>
      rw [entryClean] at h1
      rw [queueClean, queueClean, listingClean, h1]
      rfl
  | case7 p norm es queue out hdup ih =>
    rw [entriesClean, entryClean, Bool.true_and] at hc
    rw [scanGo, if_pos hdup]
    exact ih hc hq
  | case8 p norm es queue out hdup media hok ih =>
    rw [entriesClean, entryClean, Bool.true_and] at hc
    rw [scanGo, if_neg hdup, hok]
    exact ih hc hq
  | case9 p norm es queue out hdup a herr ih =>
    rw [entriesClean, entryClean, Bool.true_and] at hc
    rw [scanGo, if_neg hdup, herr]
    exact ih hc hq

/-- C5 counterexample: a failed `read_dir` on one root directory aborts the
whole scan with `Err` (losing the good file found in the other root), even
though scanning the good root alone succeeds. -/
theorem scanDirectories_abort_counterexample :
    scanDirectories 0 rootsOneBad = .error () ∧
    scanDirectories 0 [.ok [fsGoodFile]] = .ok [mediaGoodFile] := by
  constructor
  · simp only [scanDirectories, rootsOneBad, fsGoodFile, scanGo, scanFile]
    decide
  · simp only [scanDirectories, fsGoodFile, scanGo, scanFile]
    decide

/-- C5 amended: per-entry read errors, normalization failures and
unsupported extensions are skipped without aborting — a scan over clean
listings (every `read_dir` and every `file_type` probe succeeding) returns
`Ok`, and a file whose normalization fails is simply dropped from the loop —
but `read_dir`/`file_type` failures abort the scan (previous theorem). -/
theorem scanDirectories_skips_file_errors (now : Int)
    (roots : List (Except Unit (List FSEntry))) (p : String) (es : List FSEntry)
    (q : List (Except Unit (List FSEntry))) (out : List Media)
    (h : queueClean roots = true) :
    (scanDirectories now roots).isOk = true ∧
    scanGo now (.file p (.error ()) :: es) q out = scanGo now es q out := by
  constructor
  · exact scanGo_isOk now [] roots [] rfl h
  · rw [scanGo]
    split
    · rfl
    · rfl

/-- Witness for C5's amended claim on a concrete clean root set containing
an unreadable entry, a normalization failure and an unsupported extension. -/
theorem scanDirectories_skips_file_errors_witness :
    queueClean rootsClean = true ∧
    ((scanDirectories 0 rootsClean).isOk = true ∧
      scanGo 0 [.file "/a/y.mkv" (.error ())] [] [] = scanGo 0 [] [] []) :=
  ⟨by decide, scanDirectories_skips_file_errors 0 rootsClean "/a/y.mkv" [] [] []
    (by decide)⟩

/-! ### C7: filename classification -/

/-- C7: the classifier normalizes (collapse runs of non-alphanumerics to one
space, lowercase) and tries episode patterns before movie patterns — a
series-with-year filename is classified as an `Episode`; the two concrete
examples classify as stated, and any filename matching none of the three
patterns yields `Unknown`. -/
theorem detectMediaType_spec :
    detectMediaType "The.Matrix.1999.1080p.mkv" = some (.movie "the matrix" 1999) ∧
    detectMediaType "Show.Name.S02E05.mkv" = some (.episode "show name" 2 5) ∧
    detectMediaType "Show.2020.S01E02.mkv" = some (.episode "show" 1 2) ∧
    ∀ s : String, matchGroup1 yearSeTail (cleanName s) = none →
      matchGroup1 seTail (cleanName s) = none →
      matchGroup1 movieTail (cleanName s) = none →
      detectMediaType s = some .unknown := by
  refine ⟨by decide, by decide, by decide, ?_⟩
  intro s h1 h2 h3
  simp [detectMediaType, h1, h2, h3]

/-- Witness for C7's unmatched-filename clause at a concrete filename. -/
theorem detectMediaType_spec_witness :
    matchGroup1 yearSeTail (cleanName "Holiday.Clip.mkv") = none ∧
    matchGroup1 seTail (cleanName "Holiday.Clip.mkv") = none ∧
    matchGroup1 movieTail (cleanName "Holiday.Clip.mkv") = none ∧
    detectMediaType "Holiday.Clip.mkv" = some .unknown :=
  ⟨by decide, by decide, by decide,
    detectMediaType_spec.2.2.2 "Holiday.Clip.mkv" (by decide) (by decide) (by decide)⟩

/-! ### C4: list helpers for the memoization invariant -/

theorem position?_none_iff {p : α → Bool} {l : List α} :
    position? p l = none ↔ ∀ x ∈ l, p x = false := by
  induction l with
  | nil => simp [position?]
  | cons x rest ih =>
    rw [position?]
    by_cases hp : p x <;> simp [hp, ih]

theorem position?_some_elem {p : α → Bool} :
    ∀ {l : List α} {i : Nat}, position? p l = some i → ∃ x, l[i]? = some x ∧ p x = true := by
  intro l
  induction l with
  | nil => intro i h; cases h
  | cons x rest ih =>
    intro i h
    rw [position?] at h
    by_cases hp : p x
    · rw [if_pos hp] at h
      injection h with h
      subst h
      exact ⟨x, by simp, hp⟩
    · rw [if_neg hp] at h
      rw [Option.map_eq_some'] at h
      obtain ⟨j, hj, rfl⟩ := h
      obtain ⟨y, hy, hpy⟩ := ih hj
      exact ⟨y, by simpa using hy, hpy⟩

theorem map_modifyAt_invariant {f : α → α} {g : α → β} (hfg : ∀ a, g (f a) = g a) :
    ∀ (i : Nat) (l : List α), (modifyAt i f l).map g = l.map g := by
  intro i l
  induction l generalizing i with
  | nil => rw [modifyAt]
  | cons x rest ih =>
    cases i with
    | zero => simp [modifyAt, hfg]
    | succ j => simp [modifyAt, ih]

theorem mem_modifyAt {f : α → α} {l : List α} {x : α} :
    ∀ {i : Nat}, x ∈ modifyAt i f l → x ∈ l ∨ ∃ b ∈ l, x = f b := by
  induction l with
  | nil => intro i h; rw [modifyAt] at h; cases h
  | cons y rest ih =>
    intro i h
    cases i with
    | zero =>
      simp only [modifyAt] at h
      rcases List.mem_cons.1 h with h | h
      · exact Or.inr ⟨y, List.mem_cons_self _ _, h⟩
      · exact Or.inl (List.mem_cons_of_mem _ h)
    | succ j =>
      simp only [modifyAt] at h
      rcases List.mem_cons.1 h with h | h
      · exact Or.inl (by rw [h]; exact List.mem_cons_self _ _)
      · rcases ih h with h | ⟨b, hb, hx⟩
        · exact Or.inl (List.mem_cons_of_mem _ h)
        · exact Or.inr ⟨b, List.mem_cons_of_mem _ hb, hx⟩

theorem modifyAt_concat_length {f : α → α} :
    ∀ (l : List α) (x : α), modifyAt l.length f (l ++ [x]) = l ++ [f x] := by
  intro l x
  induction l with
  | nil => rfl
  | cons y rest ih => simp [modifyAt, ih]

theorem getElem?_split {l : List α} :
    ∀ {i : Nat} {x : α}, l[i]? = some x → l = l.take i ++ x :: l.drop (i + 1) := by
  induction l with
  | nil => intro i x h; cases h
  | cons y rest ih =>
    intro i x h
    cases i with
    | zero =>
      rw [List.getElem?_cons_zero] at h
      injection h with h
      subst h
      rfl
    | succ j =>
      have := ih (by simpa using h)
      simp only [List.take_succ_cons, List.drop_succ_cons, List.cons_append]
      exact congrArg (y :: ·) this

theorem modifyAt_split {f : α → α} {l : List α} :
    ∀ {i : Nat} {x : α}, l[i]? = some x →
      modifyAt i f l = l.take i ++ f x :: l.drop (i + 1) := by
  induction l with
  | nil => intro i x h; cases h
  | cons y rest ih =>
    intro i x h
    cases i with
    | zero =>
      rw [List.getElem?_cons_zero] at h
      injection h with h
      subst h
      rfl
    | succ j =>
      have := ih (by simpa using h)
      simp only [modifyAt, List.take_succ_cons, List.drop_succ_cons, List.cons_append]
      exact congrArg (y :: ·) this

theorem shapeKeys_append {a b : List (String × Nat × List Nat)} :
    shapeKeys (a ++ b) = shapeKeys a ++ shapeKeys b := by
  rw [shapeKeys, shapeKeys, shapeKeys, List.flatMap_append]

theorem mem_shapeKeys_title {sh : List (String × Nat × List Nat)} {k : String × Nat}
    (h : k ∈ shapeKeys sh) : k.1 ∈ shapeTitles sh := by
  rw [shapeKeys, List.mem_flatMap] at h
  obtain ⟨e, he, hk⟩ := h
  rw [List.mem_map] at hk
  obtain ⟨n, _, rfl⟩ := hk
  exact List.mem_map_of_mem (·.1) he

theorem shapeKeys_nodup {sh : List (String × Nat × List Nat)}
    (ht : (shapeTitles sh).Nodup) (hn : ∀ e ∈ sh, e.2.2.Nodup) :
    (shapeKeys sh).Nodup := by
  induction sh with
  | nil => exact List.nodup_nil
  | cons e rest ih =>
    rw [shapeTitles, List.map_cons, List.nodup_cons] at ht
    rw [shapeKeys, List.flatMap_cons, List.nodup_append]
    refine ⟨?_, ?_, ?_⟩
    · refine List.Nodup.map ?_ (hn e (List.mem_cons_self _ _))
      intro a b hab
      injection hab
    · exact ih ht.2 fun x hx => hn x (List.mem_cons_of_mem _ hx)
    · intro k hk hk2
      have h1 : k.1 = e.1 := by
        rw [List.mem_map] at hk
        obtain ⟨n, _, rfl⟩ := hk
        rfl
      have h2 : k.1 ∈ shapeTitles rest := mem_shapeKeys_title hk2
      rw [h1] at h2
      exact ht.1 h2

theorem perm_insert_middle (a b c : List K) (k : K) :
    ((a ++ (b ++ c)) ++ [k]).Perm (a ++ ((b ++ [k]) ++ c)) := by
  rw [← Multiset.coe_eq_coe]
  repeat rw [← Multiset.coe_add]
  abel

theorem map_modifyAt_comm {f : α → α} {g : α → β} {h : β → β}
    (hfg : ∀ a, g (f a) = h (g a)) :
    ∀ (i : Nat) (l : List α), (modifyAt i f l).map g = modifyAt i h (l.map g) := by
  intro i l
  induction l generalizing i with
  | nil => simp [modifyAt]
  | cons x rest ih =>
    cases i with
    | zero => simp [modifyAt, hfg]
    | succ j => simp [modifyAt, ih]

theorem seasonNums_modifyAt_matchfix (k id2 : Nat) (meta : EpisodeMetadata) (j : Nat)
    (l : List SeasonScrapeResult) :
    (modifyAt j (fun s =>
        { s with
            unmatched := s.unmatched.eraseIdx k
            episodes := s.episodes ++ [(id2, meta)] }) l).map (fun s => s.metadata.season) =
      l.map (fun s => s.metadata.season) := by
  refine map_modifyAt_invariant ?_ j l
  intro s
  rfl

theorem seriesShape_modifyAt_addSeason (sm : SeasonMetadata) (un : List EpisodeMetadata)
    (i : Nat) (l : List SeriesScrapeResult) :
    (modifyAt i (fun sr => { sr with seasons := sr.seasons ++ [⟨sm, [], un⟩] }) l).map
        (fun sr => (sr.metadata.title, sr.metadata.tmdbId,
          sr.seasons.map (fun s => s.metadata.season))) =
      modifyAt i (fun e => (e.1, e.2.1, e.2.2 ++ [sm.season]))
        (l.map (fun sr => (sr.metadata.title, sr.metadata.tmdbId,
          sr.seasons.map (fun s => s.metadata.season)))) := by
  refine map_modifyAt_comm ?_ i l
  intro a
  simp

theorem matchEpisodeAt_effect (id en i j : Nat) (r : ScrapeResult) (log : ScrapeCallLog) :
    seriesShape (matchEpisodeAt id en i j r log).1 = seriesShape r ∧
    (matchEpisodeAt id en i j r log).2 = log := by
  rw [matchEpisodeAt]
  split
  · exact ⟨rfl, rfl⟩
  · split
    · exact ⟨rfl, rfl⟩
    · split
      · exact ⟨rfl, rfl⟩
      · refine ⟨?_, rfl⟩
        rw [seriesShape, seriesShape]
        refine map_modifyAt_invariant ?_ i r.series
        intro a
        simp only []
        rw [seasonNums_modifyAt_matchfix]

theorem sES_season_found (sc : ScraperModel) (id sn en i : Nat) (r : ScrapeResult)
    (log : ScrapeCallLog) {sr : SeriesScrapeResult} {j : Nat}
    (hi : r.series[i]? = some sr)
    (hj : position? (fun s => s.metadata.season == sn) sr.seasons = some j) :
    seriesShape (scrapeEpisodeInSeries sc id sn en i r log).1 = seriesShape r ∧
    (scrapeEpisodeInSeries sc id sn en i r log).2 = log := by
  rw [scrapeEpisodeInSeries, hi]
  simp only [hj]
  exact matchEpisodeAt_effect id en i j r log

theorem sES_season_miss (sc : ScraperModel) (id sn en i : Nat) (r : ScrapeResult)
    (log : ScrapeCallLog) {sr : SeriesScrapeResult} (hGood : GoodScraper sc)
    (hi : r.series[i]? = some sr)
    (hj : position? (fun s => s.metadata.season == sn) sr.seasons = none) :
    seriesShape (scrapeEpisodeInSeries sc id sn en i r log).1 =
      modifyAt i (fun e => (e.1, e.2.1, e.2.2 ++ [sn])) (seriesShape r) ∧
    (scrapeEpisodeInSeries sc id sn en i r log).2.seriesCalls = log.seriesCalls ∧
    (scrapeEpisodeInSeries sc id sn en i r log).2.seasonCalls =
      log.seasonCalls ++ [(sr.metadata.title, sr.metadata.tmdbId, sn)] := by
  obtain ⟨se, hse, hsen⟩ := hGood.2 sr.metadata.tmdbId sn
  rw [scrapeEpisodeInSeries, hi]
  simp only [hj, hse]
  refine ⟨?_, ?_, ?_⟩
  · rw [(matchEpisodeAt_effect id en i sr.seasons.length _ _).1]
    rw [seriesShape, seriesShape]
    rw [← hsen]
    exact seriesShape_modifyAt_addSeason se.1 se.2 i r.series
  · rw [(matchEpisodeAt_effect id en i sr.seasons.length _ _).2]
  · rw [(matchEpisodeAt_effect id en i sr.seasons.length _ _).2]

theorem shapeTitles_modifyAt_app {sn i : Nat} {sh : List (String × Nat × List Nat)} :
    shapeTitles (modifyAt i (fun e => (e.1, e.2.1, e.2.2 ++ [sn])) sh) = shapeTitles sh := by
  rw [shapeTitles, shapeTitles]
  refine map_modifyAt_invariant ?_ i sh
  intro a
  rfl

theorem shapeKeys_cons {e : String × Nat × List Nat} {l : List (String × Nat × List Nat)} :
    shapeKeys (e :: l) = (e.2.2.map fun n => (e.1, n)) ++ shapeKeys l := by
  rw [shapeKeys, List.flatMap_cons, shapeKeys]

theorem seasonKeysL_append1 {log : ScrapeCallLog} {c : String × Nat × Nat} :
    seasonKeysL ⟨log.seriesCalls, log.seasonCalls ++ [c]⟩ =
      seasonKeysL log ++ [(c.1, c.2.2)] := by
  rw [seasonKeysL, seasonKeysL]
  simp

/-- One `scrape_all` iteration preserves the memoization invariant. -/
theorem scrapeStep_inv {sc : ScraperModel} (hGood : GoodScraper sc)
    {r : ScrapeResult} {log : ScrapeCallLog} {st' : ScrapeResult × ScrapeCallLog}
    {item : Nat × String} (h : scrapeStep sc (r, log) item = some st')
    (hinv : ScrapeInv r log) : ScrapeInv st'.1 st'.2 := by
  obtain ⟨hcalls, hnt, hne, hperm⟩ := hinv
  cases hdet : detectMediaType item.2 with
  | none =>
    simp only [scrapeStep, hdet] at h
    exact Option.noConfusion h
  | some mt =>
    cases mt with
    | unknown =>
      simp only [scrapeStep, hdet] at h
      injection h with h
      subst h
      exact ⟨hcalls, hnt, hne, hperm⟩
    | movie title year =>
      simp only [scrapeStep, hdet] at h
      cases hml : sc.movieLookup title year with
      | none =>
        simp only [hml] at h
        injection h with h
        subst h
        exact ⟨hcalls, hnt, hne, hperm⟩
      | some o =>
        cases o with
        | none =>
          simp only [hml] at h
          injection h with h
          subst h
          exact ⟨hcalls, hnt, hne, hperm⟩
        | some meta =>
          simp only [hml] at h
          injection h with h
          subst h
          exact ⟨hcalls, hnt, hne, hperm⟩
    | episode t sn en =>
      simp only [scrapeStep, hdet] at h
      cases hidx : position? (fun sr => sr.metadata.title == t) r.series with
      | some i =>
        simp only [hidx] at h
        injection h with h
        obtain ⟨sr, hi, hpred⟩ := position?_some_elem hidx
        have htitle : sr.metadata.title = t := by simpa using hpred
        cases hj : position? (fun s => s.metadata.season == sn) sr.seasons with
        | some j =>
          obtain ⟨hsh, hlog⟩ := sES_season_found sc item.1 sn en i r log hi hj
          subst h
          rw [ScrapeInv, hsh, hlog]
          exact ⟨hcalls, hnt, hne, hperm⟩
        | none =>
          obtain ⟨hsh, hlc, hsc⟩ := sES_season_miss sc item.1 sn en i r log hGood hi hj
          subst h
          have hshi : (seriesShape r)[i]? =
              some (sr.metadata.title, sr.metadata.tmdbId,
                sr.seasons.map fun s => s.metadata.season) := by
            rw [seriesShape, List.getElem?_map, hi]
            rfl
          have hsn : sn ∉ sr.seasons.map fun s => s.metadata.season := by
            intro hc
            rw [List.mem_map] at hc
            obtain ⟨s, hs, hns⟩ := hc
            have hf := position?_none_iff.1 hj s hs
            rw [hns] at hf
            simp at hf
          have hsrmem : (sr.metadata.title, sr.metadata.tmdbId,
              sr.seasons.map fun s => s.metadata.season) ∈ seriesShape r :=
            List.getElem?_mem hshi
          have hsplit := getElem?_split hshi
          have hshSplit := hsh
          rw [modifyAt_split hshi] at hshSplit
          dsimp only at hshSplit
          have hks := congrArg shapeKeys hsplit
          rw [shapeKeys_append, shapeKeys_cons] at hks
          dsimp only at hks
          refine ⟨?_, ?_, ?_, ?_⟩
          · rw [hlc, hcalls, hsh, shapeTitles_modifyAt_app]
          · rw [hsh, shapeTitles_modifyAt_app]
            exact hnt
          · intro e he
            rw [hshSplit] at he
            rcases List.mem_append.1 he with he | he
            · exact hne e (List.take_subset _ _ he)
            · rcases List.mem_cons.1 he with he | he
              · subst he
                simp only []
                rw [List.nodup_append]
                refine ⟨hne _ hsrmem, List.nodup_singleton _, ?_⟩
                intro a ha hb
                rw [List.mem_singleton] at hb
                subst hb
                exact hsn ha
              · exact hne e (List.drop_subset _ _ he)
          · have hkeys : seasonKeysL (scrapeEpisodeInSeries sc item.1 sn en i r log).2 =
                seasonKeysL log ++ [(sr.metadata.title, sn)] := by
              rw [seasonKeysL, hsc]
              simp [seasonKeysL]
            rw [hkeys, hshSplit, shapeKeys_append, shapeKeys_cons]
            dsimp only
            rw [List.map_append]
            simp only [List.map_cons, List.map_nil]
            have hpermM : (↑(seasonKeysL log) : Multiset (String × Nat)) =
                ↑(shapeKeys (seriesShape r)) := Multiset.coe_eq_coe.2 hperm
            rw [hks] at hpermM
            rw [← Multiset.coe_eq_coe]
            repeat rw [← Multiset.coe_add]
            rw [← Multiset.coe_add, ← Multiset.coe_add] at hpermM
            rw [hpermM]
            abel
      | none =>
        obtain ⟨m, hm, hmt⟩ := hGood.1 t
        simp only [hidx, hm] at h
        injection h with h
        have hlen : (r.series ++ [(⟨m, []⟩ : SeriesScrapeResult)]).length - 1 =
            r.series.length := by simp
        rw [hlen] at h
        have hi : (r.series ++ [(⟨m, []⟩ : SeriesScrapeResult)])[r.series.length]? =
            some ⟨m, []⟩ := List.getElem?_concat_length _ _
        have hj : position? (fun s => s.metadata.season == sn)
            ((⟨m, []⟩ : SeriesScrapeResult).seasons) = none := rfl
        obtain ⟨hsh, hlc, hsc⟩ := sES_season_miss sc item.1 sn en r.series.length
          { r with series := r.series ++ [⟨m, []⟩] }
          { log with seriesCalls := log.seriesCalls ++ [t] } hGood hi hj
        subst h
        have hshape1 : seriesShape { r with series := r.series ++ [⟨m, []⟩] } =
            seriesShape r ++ [(m.title, m.tmdbId, [])] := by
          rw [seriesShape, seriesShape, List.map_append]
          rfl
        have hshape2 : seriesShape (scrapeEpisodeInSeries sc item.1 sn en
            r.series.length { r with series := r.series ++ [⟨m, []⟩] }
            { log with seriesCalls := log.seriesCalls ++ [t] }).1 =
            seriesShape r ++ [(m.title, m.tmdbId, [sn])] := by
          rw [hsh, hshape1]
          have hl : r.series.length = (seriesShape r).length := by
            rw [seriesShape, List.length_map]
          rw [hl, modifyAt_concat_length]
          rfl
        have htnot : t ∉ shapeTitles (seriesShape r) := by
          intro hc
          rw [shapeTitles, seriesShape, List.map_map, List.mem_map] at hc
          obtain ⟨sr, hsr, hsrt⟩ := hc
          have hf := position?_none_iff.1 hidx sr hsr
          have : sr.metadata.title = t := hsrt
          rw [this] at hf
          simp at hf
        refine ⟨?_, ?_, ?_, ?_⟩
        · rw [hlc, hshape2]
          show log.seriesCalls ++ [t] = _
          rw [hcalls, shapeTitles, shapeTitles, List.map_append]
          rw [hmt]
          rfl
        · rw [hshape2, shapeTitles, List.map_append]
          rw [List.nodup_append]
          refine ⟨hnt, List.nodup_singleton _, ?_⟩
          intro a ha hb
          simp only [List.map_cons, List.map_nil, List.mem_singleton] at hb
          subst hb
          rw [shapeTitles] at htnot
          exact htnot (hmt ▸ ha)
        · intro e he
          rw [hshape2] at he
          rcases List.mem_append.1 he with he | he
          · exact hne e he
          · rw [List.mem_singleton] at he
            subst he
            exact List.nodup_singleton _
        · have hkeys : seasonKeysL (scrapeEpisodeInSeries sc item.1 sn en
              r.series.length { r with series := r.series ++ [⟨m, []⟩] }
              { log with seriesCalls := log.seriesCalls ++ [t] }).2 =
              seasonKeysL log ++ [(m.title, sn)] := by
            rw [seasonKeysL, hsc]
            simp [seasonKeysL]
          rw [hkeys, hshape2, shapeKeys_append, shapeKeys_cons]
          simp only [List.map_cons, List.map_nil, shapeKeys, List.flatMap_nil,
            List.append_nil]
          exact List.Perm.append hperm (List.Perm.refl _)

/-- The batch loop yields distinct series-call titles and distinct season
keys under a `GoodScraper`, starting from any invariant-satisfying state. -/
theorem scrapeAllGo_nodup {sc : ScraperModel} (hGood : GoodScraper sc) :
    ∀ (media : List (Nat × String)) (st : ScrapeResult × ScrapeCallLog),
      ScrapeInv st.1 st.2 →
      (seriesCallsOf (scrapeAllGo sc media st)).Nodup ∧
        (seasonKeysOf (scrapeAllGo sc media st)).Nodup := by
  intro media
  induction media with
  | nil =>
    intro st hinv
    obtain ⟨hcalls, hnt, hnes, hperm⟩ := hinv
    constructor
    · show st.2.seriesCalls.Nodup
      rw [hcalls]
      exact hnt
    · show (seasonKeysL st.2).Nodup
      exact hperm.nodup_iff.2 (shapeKeys_nodup hnt hnes)
  | cons item rest ih =>
    intro st hinv
    obtain ⟨r, log⟩ := st
    rw [scrapeAllGo]
    cases hs : scrapeStep sc (r, log) item with
    | none =>
      exact ⟨List.nodup_nil, List.nodup_nil⟩
    | some st2 =>
      exact ih st2 (scrapeStep_inv hGood hs hinv)

/-- C4 counterexample: with a scraper whose series lookup succeeds but finds
nothing (`Ok(None)`), a batch of two episodes of the same classified series
issues the series lookup twice — refuting "at most once per distinct
classified series title ... including when a lookup fails or returns
None". -/
theorem scrapeAll_repeats_failed_series_lookup :
    seriesCallsOf (scrapeAll scSeriesMiss batchSameSeries) = ["show", "show"] ∧
    (seriesCallsOf (scrapeAll scSeriesMiss batchSameSeries)).count "show" = 2 :=
  ⟨by decide, by decide⟩

/-- C4 amended: under a scraper whose series/season lookups always succeed
and echo their keys (title resp. season number), one batch issues at most
one series lookup per classified series title and at most one season lookup
per `(series title, season number)` pair. -/
theorem scrapeAll_memoizes (sc : ScraperModel) (media : List (Nat × String))
    (h : GoodScraper sc) :
    (seriesCallsOf (scrapeAll sc media)).Nodup ∧
      (seasonKeysOf (scrapeAll sc media)).Nodup := by
  refine scrapeAllGo_nodup h media (⟨[], []⟩, ⟨[], []⟩) ?_
  exact ⟨rfl, List.nodup_nil, fun e he => absurd he (List.not_mem_nil e), List.Perm.refl _⟩

/-- Witness for C4's amended claim: the memoizing scraper fixture satisfies
`GoodScraper`, and a three-episode batch over two seasons issues distinct
lookups. -/
theorem scrapeAll_memoizes_witness :
    GoodScraper scMemo ∧
    ((seriesCallsOf (scrapeAll scMemo batchTwoSeasons)).Nodup ∧
      (seasonKeysOf (scrapeAll scMemo batchTwoSeasons)).Nodup) :=
  ⟨⟨fun t => ⟨⟨42, t, none, none⟩, rfl, rfl⟩,
    fun i n => ⟨(⟨i, "S", n, none, none, none⟩,
      [⟨i, "E1", n, 1, 0⟩, ⟨i, "E2", n, 2, 0⟩]), rfl, rfl⟩⟩,
   scrapeAll_memoizes scMemo batchTwoSeasons
    ⟨fun t => ⟨⟨42, t, none, none⟩, rfl, rfl⟩,
     fun i n => ⟨(⟨i, "S", n, none, none, none⟩,
      [⟨i, "E1", n, 1, 0⟩, ⟨i, "E2", n, 2, 0⟩]), rfl, rfl⟩⟩⟩

/-- Witness for C9: a library holding a `Series`; a `Season` input entry
(no video) is dropped even though the two entities share no path. -/
theorem extend_drops_videoless_witness :
    (Library.WF ⟨[(1, .series ⟨⟨7, "Show", none, none⟩⟩)], 2⟩) ∧
    (Library.hasVideoless ⟨[(1, .series ⟨⟨7, "Show", none, none⟩⟩)], 2⟩) ∧
    Library.extend ⟨[(1, .series ⟨⟨7, "Show", none, none⟩⟩)], 2⟩
        [.season ⟨seasonMetaFx, 1⟩, .uncategorised uncatF1] =
      Library.extend ⟨[(1, .series ⟨⟨7, "Show", none, none⟩⟩)], 2⟩
        ([.season ⟨seasonMetaFx, 1⟩, .uncategorised uncatF1].filter
          fun m => m.video.isSome) :=
  ⟨by decide, by decide,
    extend_drops_videoless ⟨[(1, .series ⟨⟨7, "Show", none, none⟩⟩)], 2⟩
      [.season ⟨seasonMetaFx, 1⟩, .uncategorised uncatF1] (by decide) (by decide)⟩

end Jangal
